import Mathlib

/-!
# Verification of the Lexiconnect graph construction and layout engine

Shallow embedding of `buildGraphFromData`, `applyWordLayout` and
`applyRadialLayout` from the repository's graph-visualization component.
Raw record fields carry JavaScript-like values (string / null / undefined,
optional numbers); the graphology `MultiDirectedGraph` is modelled as
insertion-ordered association lists of nodes and edges.  Numeric attribute
arithmetic is modelled over `ℚ`; the trigonometric positions produced by the
radial layout are kept symbolically (`Coord.rcos` / `Coord.rsin`) and
interpreted into `ℝ` by `Coord.toReal`.  The external ForceAtlas2 refinement
pass is not modelled; the build records whether the pass runs (the source
guards it with `graph.order > 0`) and the graph as it is handed to the pass.
-/

/-- A JavaScript-like primitive value, as raw record fields carry them. -/
inductive JsValue where
  | vStr (s : String)
  | vNull
  | vUndef
deriving DecidableEq, Repr

/-- JavaScript `String(v)` coercion on the values above. -/
def jsToString : JsValue → String
  | .vStr s => s
  | .vNull => "null"
  | .vUndef => "undefined"

/-- JavaScript truthiness of the values above (the empty string is falsy). -/
def truthy : JsValue → Bool
  | .vStr s => s ≠ ""
  | .vNull => false
  | .vUndef => false

/-- JavaScript `v || d` for an optional string field (`""` is falsy). -/
def jsStrOr (v : Option String) (d : String) : String :=
  match v with
  | some s => if s = "" then d else s
  | none => d

/-- JavaScript `v || d` for an optional numeric field (`0` is falsy). -/
def jsNumOr (v : Option ℚ) (d : ℚ) : ℚ :=
  match v with
  | some q => if q = 0 then d else q
  | none => d

/-- JavaScript `s.trim()`: strip leading and trailing whitespace (modelled
structurally so it computes in the kernel). -/
def jsTrim (s : String) : String :=
  ⟨((s.data.dropWhile fun c => c.isWhitespace).reverse.dropWhile
      fun c => c.isWhitespace).reverse⟩

/-- A raw node record `{ id, type, label?, size?, color?, properties? }`
as handed to `buildGraphFromData`. -/
structure RawNode where
  id : JsValue
  type : JsValue
  label : Option String
  size : Option ℚ
  color : Option String
  properties : Option (List (String × String))
deriving DecidableEq, Repr

/-- A raw edge record `{ id?, source, target, type?, size?, color? }`. -/
structure RawEdge where
  id : Option String
  source : JsValue
  target : JsValue
  type : Option String
  size : Option ℚ
  color : Option String
deriving DecidableEq, Repr

/-- An element of the raw `edges` array: either a well-formed record or a
value failing the `!edge || typeof edge !== "object"` structural check. -/
inductive RawEdgeVal where
  | malformed
  | obj (e : RawEdge)
deriving DecidableEq, Repr

/-- A node coordinate: either a rational constant, or the symbolic value
`r * cos (2π i / n)` / `r * sin (2π i / n)` that the radial layout stores
(the source computes it with `Math.cos` / `Math.sin`). -/
inductive Coord where
  | q (v : ℚ)
  | rcos (r : ℚ) (i n : ℕ)
  | rsin (r : ℚ) (i n : ℕ)
deriving DecidableEq, Repr

/-- Real value of a coordinate. -/
noncomputable def Coord.toReal : Coord → ℝ
  | .q v => (v : ℝ)
  | .rcos r i n => (r : ℝ) * Real.cos (2 * Real.pi * i / n)
  | .rsin r i n => (r : ℝ) * Real.sin (2 * Real.pi * i / n)

/-- Attributes stored on a graph node by `graph.addNode`.  The placeholder
node created for empty input carries no `properties` key, hence `Option`. -/
structure NodeAttrs where
  label : String
  size : ℚ
  color : String
  nodeType : JsValue
  properties : Option (List (String × String))
  x : Coord
  y : Coord
deriving DecidableEq, Repr

/-- Attributes stored on a graph edge by `graph.addEdgeWithKey`. -/
structure EdgeAttrs where
  size : ℚ
  color : String
  displayType : String
  relationshipType : String
deriving DecidableEq, Repr

/-- An edge of the graph: endpoints plus attributes. -/
structure EdgeRec where
  source : String
  target : String
  attrs : EdgeAttrs
deriving DecidableEq, Repr

/-- The graphology `MultiDirectedGraph`: insertion-ordered keyed nodes and
edges.  Keys are unique (`addNode` is guarded by `hasNode` in the build,
`addEdgeWithKey` throws on a reused key). -/
structure Graph where
  nodes : List (String × NodeAttrs)
  edges : List (String × EdgeRec)
deriving DecidableEq, Repr

def Graph.empty : Graph := ⟨[], []⟩

/-- `graph.getNodeAttributes` (as an `Option`). -/
def getAttrs (g : Graph) (id : String) : Option NodeAttrs :=
  (g.nodes.find? (fun p => p.1 == id)).map Prod.snd

/-- `graph.hasNode`. -/
def hasNode (g : Graph) (id : String) : Bool :=
  (getAttrs g id).isSome

/-- `graph.addNode` (callers guard against an existing key). -/
def Graph.addNode (g : Graph) (id : String) (a : NodeAttrs) : Graph :=
  { g with nodes := g.nodes ++ [(id, a)] }

/-- Whether an edge key is already used. -/
def hasEdgeKey (g : Graph) (k : String) : Bool :=
  (g.edges.find? (fun p => p.1 == k)).isSome

/-- `graph.addEdgeWithKey` in the case where the key is fresh (on a reused
key the real call throws; the build models that branch separately). -/
def addEdgeWithKey (g : Graph) (k source target : String) (a : EdgeAttrs) : Graph :=
  { g with edges := g.edges ++ [(k, ⟨source, target, a⟩)] }

/-- `graph.order` (node count). -/
def Graph.order (g : Graph) : ℕ := g.nodes.length

/-- `graph.setNodeAttribute` for the `x` and `y` keys together, as the
layout loops use it. -/
def setNodeXY (g : Graph) (id : String) (x y : Coord) : Graph :=
  { g with nodes := g.nodes.map (fun p =>
      if p.1 = id then (p.1, { p.2 with x := x, y := y }) else p) }

/-- The resolved category of a stored node: `attrs.nodeType || "Other"`. -/
def nodeCategory (a : NodeAttrs) : String :=
  match a.nodeType with
  | .vStr s => if s = "" then "Other" else s
  | _ => "Other"

/-- The ids of the graph's nodes of a given resolved category, in insertion
order (the `nodesByType` grouping built by `graph.forEachNode`). -/
def nodesOfType (g : Graph) (t : String) : List String :=
  (g.nodes.filter (fun p => nodeCategory p.2 == t)).map Prod.fst

/-- The fixed hierarchy ordering shared by both layouts. -/
def typeOrder : List String :=
  ["Text", "Section", "Phrase", "Word", "Morpheme", "Gloss"]

/-- The inner `nodes.forEach((nodeId, i) => ...)` loop of both layouts:
assign each listed node the position computed from its in-category index. -/
def placeNodes (pos : ℕ → Coord × Coord) (g : Graph) (l : List (ℕ × String)) : Graph :=
  l.foldl (fun g' p => setNodeXY g' p.2 (pos p.1).1 (pos p.1).2) g

/-- One iteration of `applyWordLayout`'s `typeOrder.forEach((type, levelIndex))`
loop; `base` is the graph the `nodesByType` grouping was computed from. -/
def wordStep (base : Graph) (g : Graph) (p : ℕ × String) : Graph :=
  let nodes := nodesOfType base p.2
  if nodes.isEmpty then g
  else
    let totalWidth : ℚ := ((nodes.length : ℚ) - 1) * 150
    let startX : ℚ := -totalWidth / 2
    let y : ℚ := (p.1 : ℚ) * 100
    placeNodes (fun i => (.q (startX + (i : ℚ) * 150), .q y)) g nodes.enum

/-- `applyWordLayout`: banded horizontal layout (horizontalSpacing 150,
verticalSpacing 100). -/
def applyWordLayout (g : Graph) : Graph :=
  typeOrder.enum.foldl (wordStep g) g

/-- One iteration of `applyRadialLayout`'s outer loop (radiusStep 200). -/
def radialStep (base : Graph) (g : Graph) (p : ℕ × String) : Graph :=
  let nodes := nodesOfType base p.2
  if nodes.isEmpty then g
  else
    let radius : ℚ := (p.1 : ℚ) * 200
    placeNodes (fun i => (.rcos radius i nodes.length, .rsin radius i nodes.length))
      g nodes.enum

/-- `applyRadialLayout`: concentric rings by category. -/
def applyRadialLayout (g : Graph) : Graph :=
  typeOrder.enum.foldl (radialStep g) g

/-- First pass of the build: assign sequential 1-based numbers to the
distinct coerced ids of `"Section"`-typed records, in first-appearance
order (`sectionIdMap` with its `sectionCounter`). -/
def buildSectionMap (ns : List RawNode) : List (String × ℕ) :=
  (ns.foldl (fun acc r =>
    if r.type = .vStr "Section" then
      let nodeId := jsToString r.id
      if (acc.1.lookup nodeId).isSome then acc
      else (acc.1 ++ [(nodeId, acc.2 + 1)], acc.2 + 1)
    else acc) (([] : List (String × ℕ)), 0)).1

/-- The node size computed from `node.size || 10` and the per-category
floors of the build. -/
def nodeSizeOf (r : RawNode) : ℚ :=
  let d := jsNumOr r.size 10
  if r.type = .vStr "Text" then max d 25
  else if r.type = .vStr "Section" then max d 18
  else if r.type = .vStr "Phrase" then max d 12
  else if r.type = .vStr "Word" then max d 8
  else if r.type = .vStr "Morpheme" then max d 5
  else if r.type = .vStr "Gloss" then max d 6
  else d

/-- The display label: `node.label || nodeId`, overridden for
`"Section"`-typed records by the sequential number. -/
def nodeLabelOf (smap : List (String × ℕ)) (r : RawNode) : String :=
  let nodeId := jsToString r.id
  let l := jsStrOr r.label nodeId
  if r.type = .vStr "Section" then
    match smap.lookup nodeId with
    | some k => toString k
    | none => l
  else l

/-- The attributes `buildGraphFromData` stores for a raw node record. -/
def deriveAttrs (smap : List (String × ℕ)) (r : RawNode) : NodeAttrs :=
  { label := nodeLabelOf smap r
    size := nodeSizeOf r
    color := jsStrOr r.color "#64748b"
    nodeType := r.type
    properties := some (r.properties.getD [])
    x := .q 0
    y := .q 0 }

/-- One iteration of the build's node loop: coerce the id, skip when the id
already names a node, otherwise add the node. -/
def addRawNode (smap : List (String × ℕ)) (g : Graph) (r : RawNode) : Graph :=
  let nodeId := jsToString r.id
  if hasNode g nodeId then g
  else g.addNode nodeId (deriveAttrs smap r)

/-- `isDenseGraph`: raw node count above 200 or raw edge count above 500. -/
def isDenseGraph (nodeCount edgeCount : ℕ) : Bool :=
  nodeCount > 200 || edgeCount > 500

/-- The generated edge id `` `edge-${sourceId}-${targetId}-${index}` ``. -/
def genEdgeId (sourceId targetId : String) (index : ℕ) : String :=
  "edge-" ++ sourceId ++ "-" ++ targetId ++ "-" ++ toString index

/-- State threaded through the build's edge loop: the graph, the
`addedEdges` set of accepted `source→target` keys, `duplicateCount`. -/
structure EdgeState where
  graph : Graph
  added : List String
  dup : ℕ
deriving DecidableEq, Repr

/-- One iteration of the build's `data.edges.forEach((edge, index))` loop,
with the surrounding try/catch: `addEdgeWithKey` on a reused edge id throws
and the record is skipped (note `addedEdges` is then not updated). -/
def processEdge (isDense : Bool) (index : ℕ) (st : EdgeState) (ev : RawEdgeVal) : EdgeState :=
  match ev with
  | .malformed => st
  | .obj e =>
    if !truthy e.source || !truthy e.target then st
    else
      let sourceId := jsTrim (jsToString e.source)
      let targetId := jsTrim (jsToString e.target)
      if sourceId = "" || targetId = "" then st
      else
        let edgeKey := sourceId ++ "→" ++ targetId
        if edgeKey ∈ st.added then { st with dup := st.dup + 1 }
        else if !hasNode st.graph sourceId then st
        else if !hasNode st.graph targetId then st
        else
          let edgeSize : ℚ :=
            if isDense then max (jsNumOr e.size 2 * 0.8) 1.5
            else max (jsNumOr e.size 2) 1.5
          let edgeColor := jsStrOr e.color "#60a5fa" ++ "DD"
          let edgeId := jsStrOr e.id (genEdgeId sourceId targetId index)
          let attrs : EdgeAttrs :=
            { size := if edgeSize = 0 then 2 else edgeSize
              color := edgeColor
              displayType := "line"
              relationshipType := jsStrOr e.type "" }
          if edgeId = "" then st
          else if hasEdgeKey st.graph edgeId then st
          else
            { graph := addEdgeWithKey st.graph edgeId sourceId targetId attrs
              added := edgeKey :: st.added
              dup := st.dup }

/-- The whole edge loop over the indexed raw edge array. -/
def processEdges (isDense : Bool) (st : EdgeState) (es : List (ℕ × RawEdgeVal)) : EdgeState :=
  es.foldl (fun s p => processEdge isDense p.1 s p.2) st

/-- The build's result: the graph as handed to the ForceAtlas2 pass, the
duplicate-edge counter, and whether the ForceAtlas2 pass runs (the source
guards it with `graph.order > 0`; the pass itself is an external library
call mutating positions and is not modelled). -/
structure BuildResult where
  graph : Graph
  duplicateCount : ℕ
  fa2Applied : Bool
deriving DecidableEq, Repr

/-- `buildGraphFromData(data, isWordVisualization)`.  Empty (or absent) raw
node list: the placeholder `"empty"` node is created instead; otherwise
nodes are added (first id occurrence wins), the mode's layout runs, and
edges are validated and added. -/
def buildGraphFromData (ns : List RawNode) (es : List RawEdgeVal)
    (isWordVisualization : Bool) : BuildResult :=
  if ns.length > 0 then
    let sectionIdMap := buildSectionMap ns
    let g1 := ns.foldl (addRawNode sectionIdMap) Graph.empty
    let g2 := if isWordVisualization then applyWordLayout g1 else applyRadialLayout g1
    let st :=
      if es.length > 0 then
        let isDense := isDenseGraph ns.length es.length
        processEdges isDense { graph := g2, added := [], dup := 0 } es.enum
      else { graph := g2, added := [], dup := 0 }
    { graph := st.graph, duplicateCount := st.dup, fa2Applied := st.graph.order > 0 }
  else
    let g := Graph.empty.addNode "empty"
      { label := "No data yet - upload a .flextext file!"
        size := 20
        color := "#64748b"
        nodeType := .vStr "Empty"
        properties := none
        x := .q 50
        y := .q 50 }
    { graph := g, duplicateCount := 0, fa2Applied := g.order > 0 }
/-! ## Basic lemmas about the graph model -/

/-- The node keys of a graph, in insertion order. -/
def keysOf (g : Graph) : List String := g.nodes.map Prod.fst

theorem hasNode_iff_mem_keys {g : Graph} {id : String} :
    hasNode g id = true ↔ id ∈ keysOf g := by
  unfold hasNode getAttrs keysOf
  constructor
  · intro h
    cases hf : g.nodes.find? (fun p => p.1 == id) with
    | none => rw [hf] at h; simp at h
    | some p =>
      have hm := List.mem_of_find?_eq_some hf
      have hp : p.1 = id := by simpa using List.find?_some hf
      exact hp ▸ List.mem_map.mpr ⟨p, hm, rfl⟩
  · intro hm
    rcases List.mem_map.mp hm with ⟨p, hp, hpe⟩
    have hs : (g.nodes.find? (fun p => p.1 == id)).isSome :=
      List.find?_isSome.mpr ⟨p, hp, by simp [hpe]⟩
    cases hf : g.nodes.find? (fun p => p.1 == id) with
    | none => rw [hf] at hs; simp at hs
    | some p => simp

theorem hasNode_eq_false_iff {g : Graph} {id : String} :
    hasNode g id = false ↔ getAttrs g id = none := by
  unfold hasNode
  cases getAttrs g id <;> simp

theorem mem_of_getAttrs_eq_some {g : Graph} {id : String} {a : NodeAttrs}
    (h : getAttrs g id = some a) : (id, a) ∈ g.nodes := by
  unfold getAttrs at h
  rcases Option.map_eq_some'.mp h with ⟨p, hp, hpa⟩
  have hmem := List.mem_of_find?_eq_some hp
  have hpe : p.1 = id := by
    have := List.find?_some hp
    simpa using this
  have : p = (id, a) := by
    cases p
    simp_all
  rw [this] at hmem
  exact hmem

theorem getAttrs_eq_some_of_mem {g : Graph} {id : String} {a : NodeAttrs}
    (hnd : (keysOf g).Nodup) (h : (id, a) ∈ g.nodes) : getAttrs g id = some a := by
  unfold getAttrs
  rcases g with ⟨nds, eds⟩
  simp only [keysOf] at hnd
  simp only at h ⊢
  induction nds with
  | nil => simp at h
  | cons hd t ih =>
    rcases List.mem_cons.mp h with h1 | h1
    · subst h1
      simp [List.find?_cons]
    · have hne : hd.1 ≠ id := by
        intro he
        have : id ∈ t.map Prod.fst := List.mem_map.mpr ⟨(id, a), h1, rfl⟩
        rw [List.map_cons, List.nodup_cons] at hnd
        exact hnd.1 (he ▸ this)
      have hb : (hd.1 == id) = false := by simpa using hne
      rw [List.find?_cons, hb]
      exact ih (by rw [List.map_cons, List.nodup_cons] at hnd; exact hnd.2) h1

theorem getAttrs_eq_of_nodes_eq {g g' : Graph} (h : g.nodes = g'.nodes) (id : String) :
    getAttrs g id = getAttrs g' id := by
  unfold getAttrs
  rw [h]

theorem getAttrs_addNode (g : Graph) (id : String) (a : NodeAttrs) (id' : String) :
    getAttrs (g.addNode id a) id'
      = (getAttrs g id').or (if id = id' then some a else none) := by
  unfold getAttrs Graph.addNode
  simp only
  rw [List.find?_append]
  cases hf : g.nodes.find? (fun p => p.1 == id') with
  | some p => simp
  | none =>
    by_cases hid : id = id' <;> simp [List.find?_cons, hid]

theorem keysOf_addNode (g : Graph) (id : String) (a : NodeAttrs) :
    keysOf (g.addNode id a) = keysOf g ++ [id] := by
  simp [keysOf, Graph.addNode]

/-! ## The node phase of the build -/

theorem addRawNode_pos (smap : List (String × ℕ)) {g : Graph} {r : RawNode}
    (h : hasNode g (jsToString r.id) = true) : addRawNode smap g r = g := by
  unfold addRawNode
  simp [h]

theorem addRawNode_neg (smap : List (String × ℕ)) {g : Graph} {r : RawNode}
    (h : hasNode g (jsToString r.id) = false) :
    addRawNode smap g r = g.addNode (jsToString r.id) (deriveAttrs smap r) := by
  unfold addRawNode
  simp [h]

/-- The coerced ids of the records a run of the node loop adds to a graph
whose key set is `seen`, in insertion order. -/
def freshIds (seen : List String) : List RawNode → List String
  | [] => []
  | r :: t =>
    let i := jsToString r.id
    if i ∈ seen then freshIds seen t else i :: freshIds (i :: seen) t

theorem freshIds_congr : ∀ (ns : List RawNode) (seen seen' : List String),
    (∀ x, x ∈ seen ↔ x ∈ seen') → freshIds seen ns = freshIds seen' ns := by
  intro ns
  induction ns with
  | nil => intro seen seen' h; rfl
  | cons r t ih =>
    intro seen seen' h
    simp only [freshIds]
    by_cases hm : jsToString r.id ∈ seen
    · rw [if_pos hm, if_pos ((h _).mp hm)]
      exact ih seen seen' h
    · rw [if_neg hm, if_neg (fun hc => hm ((h _).mpr hc))]
      have h2 : ∀ x, x ∈ jsToString r.id :: seen ↔ x ∈ jsToString r.id :: seen' := by
        intro x
        simp [h x]
      rw [ih _ _ h2]

theorem mem_freshIds {i : String} : ∀ {ns : List RawNode} {seen : List String},
    i ∈ freshIds seen ns ↔ (i ∈ ns.map (fun r => jsToString r.id) ∧ i ∉ seen) := by
  intro ns
  induction ns with
  | nil => intro seen; simp [freshIds]
  | cons r t ih =>
    intro seen
    simp only [freshIds, List.map_cons, List.mem_cons]
    by_cases hm : jsToString r.id ∈ seen
    · rw [if_pos hm, ih]
      constructor
      · rintro ⟨h1, h2⟩
        exact ⟨Or.inr h1, h2⟩
      · rintro ⟨h1 | h1, h2⟩
        · exact absurd (h1 ▸ hm) h2
        · exact ⟨h1, h2⟩
    · rw [if_neg hm]
      simp only [List.mem_cons, ih]
      by_cases hic : i = jsToString r.id
      · subst hic
        simp [hm]
      · simp [hic]

theorem freshIds_nodup : ∀ {ns : List RawNode} {seen : List String},
    (freshIds seen ns).Nodup := by
  intro ns
  induction ns with
  | nil => intro seen; simp [freshIds]
  | cons r t ih =>
    intro seen
    simp only [freshIds]
    by_cases hm : jsToString r.id ∈ seen
    · rw [if_pos hm]
      exact ih
    · rw [if_neg hm]
      refine List.nodup_cons.mpr ⟨?_, ih⟩
      intro hc
      exact (mem_freshIds.mp hc).2 (List.mem_cons_self _ _)

theorem toFinset_freshIds (seen : List String) (ns : List RawNode) :
    (freshIds seen ns).toFinset
      = (ns.map (fun r => jsToString r.id)).toFinset \ seen.toFinset := by
  ext i
  simp [mem_freshIds]

theorem keysOf_foldl_addRawNode (smap : List (String × ℕ)) :
    ∀ (ns : List RawNode) (g : Graph),
    keysOf (ns.foldl (addRawNode smap) g) = keysOf g ++ freshIds (keysOf g) ns := by
  intro ns
  induction ns with
  | nil => intro g; simp [freshIds]
  | cons r t ih =>
    intro g
    simp only [List.foldl_cons, freshIds]
    by_cases h : hasNode g (jsToString r.id)
    · have hm : jsToString r.id ∈ keysOf g := hasNode_iff_mem_keys.mp h
      rw [addRawNode_pos smap h, ih, if_pos hm]
    · have h' : hasNode g (jsToString r.id) = false := by simpa using h
      have hm : jsToString r.id ∉ keysOf g := fun hc => by
        simp [hasNode_iff_mem_keys.mpr hc] at h'
      rw [addRawNode_neg smap h', ih, keysOf_addNode, if_neg hm]
      rw [freshIds_congr t (keysOf g ++ [jsToString r.id]) (jsToString r.id :: keysOf g)
        (by intro x; simp [or_comm])]
      simp

theorem getAttrs_foldl_addRawNode (smap : List (String × ℕ)) :
    ∀ (ns : List RawNode) (g : Graph) (id : String),
    getAttrs (ns.foldl (addRawNode smap) g) id
      = (getAttrs g id).or
          ((ns.find? (fun r => jsToString r.id == id)).map (deriveAttrs smap)) := by
  intro ns
  induction ns with
  | nil => intro g id; simp
  | cons r t ih =>
    intro g id
    simp only [List.foldl_cons]
    rw [ih]
    by_cases hdup : hasNode g (jsToString r.id)
    · rw [addRawNode_pos smap hdup]
      by_cases hid : jsToString r.id = id
      · subst hid
        have hs : (getAttrs g (jsToString r.id)).isSome := hdup
        rcases Option.isSome_iff_exists.mp hs with ⟨a, ha⟩
        rw [ha]
        simp
      · have hb : (jsToString r.id == id) = false := by simpa using hid
        rw [List.find?_cons, hb]
    · have h' : hasNode g (jsToString r.id) = false := by simpa using hdup
      have hnone : getAttrs g (jsToString r.id) = none := hasNode_eq_false_iff.mp h'
      by_cases hid : jsToString r.id = id
      · subst hid
        rw [addRawNode_neg smap h', getAttrs_addNode, hnone]
        rw [List.find?_cons]
        simp
      · have hb : (jsToString r.id == id) = false := by simpa using hid
        rw [addRawNode_neg smap h', getAttrs_addNode, List.find?_cons, hb, if_neg hid]
        simp

theorem edges_addRawNode (smap : List (String × ℕ)) (g : Graph) (r : RawNode) :
    (addRawNode smap g r).edges = g.edges := by
  by_cases h : hasNode g (jsToString r.id)
  · rw [addRawNode_pos smap h]
  · rw [addRawNode_neg smap (by simpa using h)]
    rfl

theorem edges_foldl_addRawNode (smap : List (String × ℕ)) :
    ∀ (ns : List RawNode) (g : Graph),
    (ns.foldl (addRawNode smap) g).edges = g.edges := by
  intro ns
  induction ns with
  | nil => intro g; rfl
  | cons r t ih =>
    intro g
    rw [List.foldl_cons, ih, edges_addRawNode]

/-! ## Layout infrastructure -/

theorem getAttrs_setNodeXY (g : Graph) (j : String) (x y : Coord) (id : String) :
    getAttrs (setNodeXY g j x y) id =
      if j = id then (getAttrs g id).map (fun a => { a with x := x, y := y })
      else getAttrs g id := by
  rcases g with ⟨nds, eds⟩
  unfold setNodeXY getAttrs
  simp only
  induction nds with
  | nil => by_cases h : j = id <;> simp [h]
  | cons p t ih =>
    simp only [List.map_cons, List.find?_cons]
    by_cases hb : p.1 = id
    · by_cases hj : j = id
      · have hpj : p.1 = j := by rw [hb, hj]
        simp [hb, hj, hpj]
      · have hpj : ¬ p.1 = j := fun hc => hj (hc ▸ hb)
        have hb' : (p.1 == id) = true := by simpa using hb
        simp only [if_neg hpj, hb', if_neg hj]
    · by_cases hpj : p.1 = j
      · have hj : ¬ j = id := fun hc => hb (hpj.trans hc)
        have hb' : (p.1 == id) = false := by simpa using hb
        simp only [if_pos hpj, hb', hj, if_false]
        simpa [hj] using ih
      · have hb' : (p.1 == id) = false := by simpa using hb
        simp only [if_neg hpj, hb']
        exact ih

theorem keysOf_setNodeXY (g : Graph) (j : String) (x y : Coord) :
    keysOf (setNodeXY g j x y) = keysOf g := by
  unfold keysOf setNodeXY
  simp only [List.map_map]
  apply List.map_congr_left
  intro p hp
  simp only [Function.comp]
  split <;> rfl

theorem edges_setNodeXY (g : Graph) (j : String) (x y : Coord) :
    (setNodeXY g j x y).edges = g.edges := rfl

theorem placeNodes_nil (pos : ℕ → Coord × Coord) (g : Graph) :
    placeNodes pos g [] = g := rfl

theorem placeNodes_cons (pos : ℕ → Coord × Coord) (g : Graph) (p : ℕ × String)
    (t : List (ℕ × String)) :
    placeNodes pos g (p :: t)
      = placeNodes pos (setNodeXY g p.2 (pos p.1).1 (pos p.1).2) t := rfl

theorem getAttrs_placeNodes_not_mem (pos : ℕ → Coord × Coord) (id : String) :
    ∀ (l : List (ℕ × String)) (g : Graph), id ∉ l.map Prod.snd →
    getAttrs (placeNodes pos g l) id = getAttrs g id := by
  intro l
  induction l with
  | nil => intro g _; rfl
  | cons p t ih =>
    intro g h
    rw [placeNodes_cons]
    have hne : p.2 ≠ id := fun he => h (by simp [he])
    rw [ih _ (fun hc => h (by simp [hc]))]
    rw [getAttrs_setNodeXY, if_neg hne]

theorem getAttrs_placeNodes_mem (pos : ℕ → Coord × Coord) (id : String) :
    ∀ (l : List (ℕ × String)) (g : Graph) (i : ℕ),
    (l.map Prod.snd).Nodup → (i, id) ∈ l →
    getAttrs (placeNodes pos g l) id
      = (getAttrs g id).map (fun a => { a with x := (pos i).1, y := (pos i).2 }) := by
  intro l
  induction l with
  | nil => intro g i _ h; simp at h
  | cons p t ih =>
    intro g i hnd hm
    rw [List.map_cons] at hnd
    obtain ⟨hh, hnd'⟩ := List.nodup_cons.mp hnd
    rw [placeNodes_cons]
    rcases List.mem_cons.mp hm with he | ht
    · have hp2 : p.2 = id := by rw [← he]
      have hp1 : p.1 = i := by rw [← he]
      have hid : id ∉ t.map Prod.snd := hp2 ▸ hh
      rw [getAttrs_placeNodes_not_mem _ _ _ _ hid]
      rw [getAttrs_setNodeXY, if_pos hp2, hp1]
    · have hsnd : id ∈ t.map Prod.snd := List.mem_map.mpr ⟨(i, id), ht, rfl⟩
      have hne : p.2 ≠ id := fun he => hh (he ▸ hsnd)
      rw [ih _ i hnd' ht]
      rw [getAttrs_setNodeXY, if_neg hne]

/-- A per-graph observation that every `setNodeXY` preserves is preserved by
`placeNodes` and by any fold of layout steps. -/
theorem foldl_pres {α β : Type} (F : Graph → β) (step : Graph → α → Graph)
    (hstep : ∀ g p, F (step g p) = F g) :
    ∀ (l : List α) (g : Graph), F (l.foldl step g) = F g := by
  intro l
  induction l with
  | nil => intro g; rfl
  | cons p t ih =>
    intro g
    rw [List.foldl_cons, ih, hstep]

theorem keysOf_placeNodes (pos : ℕ → Coord × Coord) (l : List (ℕ × String)) (g : Graph) :
    keysOf (placeNodes pos g l) = keysOf g := by
  unfold placeNodes
  exact foldl_pres keysOf _ (fun g' p => keysOf_setNodeXY g' p.2 (pos p.1).1 (pos p.1).2) l g

theorem edges_placeNodes (pos : ℕ → Coord × Coord) (l : List (ℕ × String)) (g : Graph) :
    (placeNodes pos g l).edges = g.edges := by
  unfold placeNodes
  exact foldl_pres Graph.edges _ (fun g' p => edges_setNodeXY g' p.2 (pos p.1).1 (pos p.1).2) l g

theorem keysOf_wordStep (base g : Graph) (p : ℕ × String) :
    keysOf (wordStep base g p) = keysOf g := by
  simp only [wordStep]
  split
  · rfl
  · apply keysOf_placeNodes

theorem edges_wordStep (base g : Graph) (p : ℕ × String) :
    (wordStep base g p).edges = g.edges := by
  simp only [wordStep]
  split
  · rfl
  · apply edges_placeNodes

theorem keysOf_radialStep (base g : Graph) (p : ℕ × String) :
    keysOf (radialStep base g p) = keysOf g := by
  simp only [radialStep]
  split
  · rfl
  · apply keysOf_placeNodes

theorem edges_radialStep (base g : Graph) (p : ℕ × String) :
    (radialStep base g p).edges = g.edges := by
  simp only [radialStep]
  split
  · rfl
  · apply edges_placeNodes

theorem keysOf_applyWordLayout (g : Graph) : keysOf (applyWordLayout g) = keysOf g :=
  foldl_pres keysOf (wordStep g) (keysOf_wordStep g) typeOrder.enum g

theorem edges_applyWordLayout (g : Graph) : (applyWordLayout g).edges = g.edges :=
  foldl_pres Graph.edges (wordStep g) (edges_wordStep g) typeOrder.enum g

theorem keysOf_applyRadialLayout (g : Graph) : keysOf (applyRadialLayout g) = keysOf g :=
  foldl_pres keysOf (radialStep g) (keysOf_radialStep g) typeOrder.enum g

theorem edges_applyRadialLayout (g : Graph) : (applyRadialLayout g).edges = g.edges :=
  foldl_pres Graph.edges (radialStep g) (edges_radialStep g) typeOrder.enum g

/-! ## Category membership and the layout characterizations -/

theorem nodesOfType_nodup {g : Graph} (hnd : (keysOf g).Nodup) (t : String) :
    (nodesOfType g t).Nodup := by
  unfold nodesOfType
  unfold keysOf at hnd
  exact List.Nodup.sublist (List.Sublist.map Prod.fst (List.filter_sublist g.nodes)) hnd

theorem mem_nodesOfType_iff {g : Graph} (hnd : (keysOf g).Nodup) {id : String} {a : NodeAttrs}
    (ha : getAttrs g id = some a) (t : String) :
    id ∈ nodesOfType g t ↔ nodeCategory a = t := by
  unfold nodesOfType
  constructor
  · intro hm
    rcases List.mem_map.mp hm with ⟨p, hp, hpe⟩
    have hpf := List.mem_filter.mp hp
    have hmem : (id, p.2) ∈ g.nodes := by
      have : p = (id, p.2) := by
        cases p
        simp_all
      rw [← this]
      exact hpf.1
    have := getAttrs_eq_some_of_mem hnd hmem
    rw [ha] at this
    have hap : a = p.2 := by injection this
    rw [hap]
    simpa using hpf.2
  · intro hc
    have hm := mem_of_getAttrs_eq_some ha
    exact List.mem_map.mpr ⟨(id, a), List.mem_filter.mpr ⟨hm, by simp [hc]⟩, rfl⟩

theorem exists_attrs_of_mem_nodesOfType {g : Graph} {t id : String}
    (hnd : (keysOf g).Nodup) (h : id ∈ nodesOfType g t) :
    ∃ a, getAttrs g id = some a ∧ nodeCategory a = t := by
  unfold nodesOfType at h
  rcases List.mem_map.mp h with ⟨p, hp, hpe⟩
  have hpf := List.mem_filter.mp hp
  have hmem : (id, p.2) ∈ g.nodes := by
    have : p = (id, p.2) := by
      cases p
      simp_all
    rw [← this]
    exact hpf.1
  exact ⟨p.2, getAttrs_eq_some_of_mem hnd hmem, by simpa using hpf.2⟩

theorem foldl_getAttrs_untouched {α : Type} (step : Graph → α → Graph) (id : String) :
    ∀ (l : List α) (g : Graph),
    (∀ (g' : Graph) (p : α), p ∈ l → getAttrs (step g' p) id = getAttrs g' id) →
    getAttrs (l.foldl step g) id = getAttrs g id := by
  intro l
  induction l with
  | nil => intro g _; rfl
  | cons p t ih =>
    intro g h
    rw [List.foldl_cons]
    rw [ih _ (fun g' p' hp' => h g' p' (List.mem_cons_of_mem _ hp'))]
    exact h g p (List.mem_cons_self _ _)

theorem foldl_getAttrs_place {α : Type} (step : Graph → α → Graph) (id : String)
    (l1 l2 : List α) (m : α) (g : Graph) (f : NodeAttrs → NodeAttrs)
    (h1 : ∀ (g' : Graph) (p : α), p ∈ l1 → getAttrs (step g' p) id = getAttrs g' id)
    (h2 : ∀ (g' : Graph) (p : α), p ∈ l2 → getAttrs (step g' p) id = getAttrs g' id)
    (h0 : ∀ (g' : Graph), getAttrs (step g' m) id = (getAttrs g' id).map f) :
    getAttrs ((l1 ++ m :: l2).foldl step g) id = (getAttrs g id).map f := by
  rw [List.foldl_append, List.foldl_cons]
  rw [foldl_getAttrs_untouched step id l2 _ h2, h0, foldl_getAttrs_untouched step id l1 _ h1]

theorem mem_enum_of_getElem? {α : Type} {l : List α} {i : ℕ} {a : α}
    (h : l[i]? = some a) : (i, a) ∈ l.enum := by
  have he : l.enum[i]? = some (i, a) := by
    rw [List.getElem?_enum l i, h]
    rfl
  exact List.getElem?_mem he

theorem wordStep_not_mem (base g : Graph) (p : ℕ × String) (id : String)
    (h : id ∉ nodesOfType base p.2) :
    getAttrs (wordStep base g p) id = getAttrs g id := by
  simp only [wordStep]
  split
  · rfl
  · apply getAttrs_placeNodes_not_mem
    rw [List.enum_map_snd]
    exact h

theorem radialStep_not_mem (base g : Graph) (p : ℕ × String) (id : String)
    (h : id ∉ nodesOfType base p.2) :
    getAttrs (radialStep base g p) id = getAttrs g id := by
  simp only [radialStep]
  split
  · rfl
  · apply getAttrs_placeNodes_not_mem
    rw [List.enum_map_snd]
    exact h

theorem wordStep_placed (base g : Graph) (L : ℕ) (t : String) (i : ℕ) (id : String)
    (hnd : (nodesOfType base t).Nodup) (hi : (nodesOfType base t)[i]? = some id) :
    getAttrs (wordStep base g (L, t)) id =
      (getAttrs g id).map (fun a =>
        { a with
          x := Coord.q (-((((nodesOfType base t).length : ℚ) - 1) * 150) / 2 + (i : ℚ) * 150),
          y := Coord.q ((L : ℚ) * 100) }) := by
  have hlt : i < (nodesOfType base t).length := (List.getElem?_eq_some.mp hi).1
  have hne : ((nodesOfType base t).isEmpty) = false := by
    rcases h : nodesOfType base t with _ | _
    · rw [h] at hlt; simp at hlt
    · rfl
  simp only [wordStep, hne, Bool.false_eq_true, if_false]
  rw [getAttrs_placeNodes_mem _ _ _ _ i (by rw [List.enum_map_snd]; exact hnd)
    (mem_enum_of_getElem? hi)]

theorem radialStep_placed (base g : Graph) (L : ℕ) (t : String) (i : ℕ) (id : String)
    (hnd : (nodesOfType base t).Nodup) (hi : (nodesOfType base t)[i]? = some id) :
    getAttrs (radialStep base g (L, t)) id =
      (getAttrs g id).map (fun a =>
        { a with
          x := Coord.rcos ((L : ℚ) * 200) i (nodesOfType base t).length,
          y := Coord.rsin ((L : ℚ) * 200) i (nodesOfType base t).length }) := by
  have hlt : i < (nodesOfType base t).length := (List.getElem?_eq_some.mp hi).1
  have hne : ((nodesOfType base t).isEmpty) = false := by
    rcases h : nodesOfType base t with _ | _
    · rw [h] at hlt; simp at hlt
    · rfl
  simp only [radialStep, hne, Bool.false_eq_true, if_false]
  rw [getAttrs_placeNodes_mem _ _ _ _ i (by rw [List.enum_map_snd]; exact hnd)
    (mem_enum_of_getElem? hi)]

theorem getAttrs_applyWordLayout_aux (g : Graph) (hnd : (keysOf g).Nodup)
    (l1 l2 : List (ℕ × String)) (L : ℕ) (t : String)
    (hsplit : typeOrder.enum = l1 ++ (L, t) :: l2)
    (ho1 : ∀ p ∈ l1, p.2 ≠ t) (ho2 : ∀ p ∈ l2, p.2 ≠ t)
    (i : ℕ) (id : String) (hi : (nodesOfType g t)[i]? = some id) :
    getAttrs (applyWordLayout g) id =
      (getAttrs g id).map (fun a =>
        { a with
          x := Coord.q (-((((nodesOfType g t).length : ℚ) - 1) * 150) / 2 + (i : ℚ) * 150),
          y := Coord.q ((L : ℚ) * 100) }) := by
  have hmem : id ∈ nodesOfType g t := List.getElem?_mem hi
  rcases exists_attrs_of_mem_nodesOfType hnd hmem with ⟨a, ha, hcat⟩
  have hunt : ∀ (p : ℕ × String), p.2 ≠ t → ∀ (g' : Graph),
      getAttrs (wordStep g g' p) id = getAttrs g' id := by
    intro p hp g'
    apply wordStep_not_mem
    intro hc
    exact hp (by rw [← (mem_nodesOfType_iff hnd ha p.2).mp hc]; exact hcat)
  unfold applyWordLayout
  rw [hsplit]
  exact foldl_getAttrs_place (wordStep g) id l1 l2 (L, t) g _
    (fun g' p hp => hunt p (ho1 p hp) g')
    (fun g' p hp => hunt p (ho2 p hp) g')
    (fun g' => wordStep_placed g g' L t i id (nodesOfType_nodup hnd t) hi)

theorem getAttrs_applyRadialLayout_aux (g : Graph) (hnd : (keysOf g).Nodup)
    (l1 l2 : List (ℕ × String)) (L : ℕ) (t : String)
    (hsplit : typeOrder.enum = l1 ++ (L, t) :: l2)
    (ho1 : ∀ p ∈ l1, p.2 ≠ t) (ho2 : ∀ p ∈ l2, p.2 ≠ t)
    (i : ℕ) (id : String) (hi : (nodesOfType g t)[i]? = some id) :
    getAttrs (applyRadialLayout g) id =
      (getAttrs g id).map (fun a =>
        { a with
          x := Coord.rcos ((L : ℚ) * 200) i (nodesOfType g t).length,
          y := Coord.rsin ((L : ℚ) * 200) i (nodesOfType g t).length }) := by
  have hmem : id ∈ nodesOfType g t := List.getElem?_mem hi
  rcases exists_attrs_of_mem_nodesOfType hnd hmem with ⟨a, ha, hcat⟩
  have hunt : ∀ (p : ℕ × String), p.2 ≠ t → ∀ (g' : Graph),
      getAttrs (radialStep g g' p) id = getAttrs g' id := by
    intro p hp g'
    apply radialStep_not_mem
    intro hc
    exact hp (by rw [← (mem_nodesOfType_iff hnd ha p.2).mp hc]; exact hcat)
  unfold applyRadialLayout
  rw [hsplit]
  exact foldl_getAttrs_place (radialStep g) id l1 l2 (L, t) g _
    (fun g' p hp => hunt p (ho1 p hp) g')
    (fun g' p hp => hunt p (ho2 p hp) g')
    (fun g' => radialStep_placed g g' L t i id (nodesOfType_nodup hnd t) hi)

theorem typeOrder_lt_six {L : ℕ} {t : String} (hL : typeOrder[L]? = some t) : L < 6 := by
  by_contra hcon
  push_neg at hcon
  have : typeOrder[L]? = none := List.getElem?_eq_none (by simpa [typeOrder] using hcon)
  rw [this] at hL
  cases hL

theorem getAttrs_applyWordLayout (g : Graph) (hnd : (keysOf g).Nodup)
    (L : ℕ) (t : String) (hL : typeOrder[L]? = some t)
    (i : ℕ) (id : String) (hi : (nodesOfType g t)[i]? = some id) :
    getAttrs (applyWordLayout g) id =
      (getAttrs g id).map (fun a =>
        { a with
          x := Coord.q (-((((nodesOfType g t).length : ℚ) - 1) * 150) / 2 + (i : ℚ) * 150),
          y := Coord.q ((L : ℚ) * 100) }) := by
  have hlen : L < 6 := typeOrder_lt_six hL
  interval_cases L
  · have ht : "Text" = t := by simpa [typeOrder] using hL
    subst ht
    exact getAttrs_applyWordLayout_aux g hnd []
      [(1, "Section"), (2, "Phrase"), (3, "Word"), (4, "Morpheme"), (5, "Gloss")]
      0 "Text" rfl (by simp) (by decide) i id hi
  · have ht : "Section" = t := by simpa [typeOrder] using hL
    subst ht
    exact getAttrs_applyWordLayout_aux g hnd [(0, "Text")]
      [(2, "Phrase"), (3, "Word"), (4, "Morpheme"), (5, "Gloss")]
      1 "Section" rfl (by decide) (by decide) i id hi
  · have ht : "Phrase" = t := by simpa [typeOrder] using hL
    subst ht
    exact getAttrs_applyWordLayout_aux g hnd [(0, "Text"), (1, "Section")]
      [(3, "Word"), (4, "Morpheme"), (5, "Gloss")]
      2 "Phrase" rfl (by decide) (by decide) i id hi
  · have ht : "Word" = t := by simpa [typeOrder] using hL
    subst ht
    exact getAttrs_applyWordLayout_aux g hnd [(0, "Text"), (1, "Section"), (2, "Phrase")]
      [(4, "Morpheme"), (5, "Gloss")]
      3 "Word" rfl (by decide) (by decide) i id hi
  · have ht : "Morpheme" = t := by simpa [typeOrder] using hL
    subst ht
    exact getAttrs_applyWordLayout_aux g hnd
      [(0, "Text"), (1, "Section"), (2, "Phrase"), (3, "Word")]
      [(5, "Gloss")]
      4 "Morpheme" rfl (by decide) (by decide) i id hi
  · have ht : "Gloss" = t := by simpa [typeOrder] using hL
    subst ht
    exact getAttrs_applyWordLayout_aux g hnd
      [(0, "Text"), (1, "Section"), (2, "Phrase"), (3, "Word"), (4, "Morpheme")]
      []
      5 "Gloss" rfl (by decide) (by simp) i id hi

theorem getAttrs_applyRadialLayout (g : Graph) (hnd : (keysOf g).Nodup)
    (L : ℕ) (t : String) (hL : typeOrder[L]? = some t)
    (i : ℕ) (id : String) (hi : (nodesOfType g t)[i]? = some id) :
    getAttrs (applyRadialLayout g) id =
      (getAttrs g id).map (fun a =>
        { a with
          x := Coord.rcos ((L : ℚ) * 200) i (nodesOfType g t).length,
          y := Coord.rsin ((L : ℚ) * 200) i (nodesOfType g t).length }) := by
  have hlen : L < 6 := typeOrder_lt_six hL
  interval_cases L
  · have ht : "Text" = t := by simpa [typeOrder] using hL
    subst ht
    exact getAttrs_applyRadialLayout_aux g hnd []
      [(1, "Section"), (2, "Phrase"), (3, "Word"), (4, "Morpheme"), (5, "Gloss")]
      0 "Text" rfl (by simp) (by decide) i id hi
  · have ht : "Section" = t := by simpa [typeOrder] using hL
    subst ht
    exact getAttrs_applyRadialLayout_aux g hnd [(0, "Text")]
      [(2, "Phrase"), (3, "Word"), (4, "Morpheme"), (5, "Gloss")]
      1 "Section" rfl (by decide) (by decide) i id hi
  · have ht : "Phrase" = t := by simpa [typeOrder] using hL
    subst ht
    exact getAttrs_applyRadialLayout_aux g hnd [(0, "Text"), (1, "Section")]
      [(3, "Word"), (4, "Morpheme"), (5, "Gloss")]
      2 "Phrase" rfl (by decide) (by decide) i id hi
  · have ht : "Word" = t := by simpa [typeOrder] using hL
    subst ht
    exact getAttrs_applyRadialLayout_aux g hnd [(0, "Text"), (1, "Section"), (2, "Phrase")]
      [(4, "Morpheme"), (5, "Gloss")]
      3 "Word" rfl (by decide) (by decide) i id hi
  · have ht : "Morpheme" = t := by simpa [typeOrder] using hL
    subst ht
    exact getAttrs_applyRadialLayout_aux g hnd
      [(0, "Text"), (1, "Section"), (2, "Phrase"), (3, "Word")]
      [(5, "Gloss")]
      4 "Morpheme" rfl (by decide) (by decide) i id hi
  · have ht : "Gloss" = t := by simpa [typeOrder] using hL
    subst ht
    exact getAttrs_applyRadialLayout_aux g hnd
      [(0, "Text"), (1, "Section"), (2, "Phrase"), (3, "Word"), (4, "Morpheme")]
      []
      5 "Gloss" rfl (by decide) (by simp) i id hi

/-! ## Projections preserved by the layouts (everything but x and y) -/

theorem proj_setNodeXY {β : Type} (f : NodeAttrs → β)
    (hf : ∀ (a : NodeAttrs) (x y : Coord), f { a with x := x, y := y } = f a)
    (g : Graph) (j : String) (x y : Coord) (id : String) :
    (getAttrs (setNodeXY g j x y) id).map f = (getAttrs g id).map f := by
  rw [getAttrs_setNodeXY]
  split
  · cases getAttrs g id with
    | none => rfl
    | some a => simp [hf]
  · rfl

theorem foldl_pres_state {σ α : Type} {β : Type} (F : σ → β) (step : σ → α → σ)
    (hstep : ∀ (s : σ) (p : α), F (step s p) = F s) :
    ∀ (l : List α) (s : σ), F (l.foldl step s) = F s := by
  intro l
  induction l with
  | nil => intro s; rfl
  | cons p t ih =>
    intro s
    rw [List.foldl_cons, ih, hstep]

theorem proj_placeNodes {β : Type} (f : NodeAttrs → β)
    (hf : ∀ (a : NodeAttrs) (x y : Coord), f { a with x := x, y := y } = f a)
    (pos : ℕ → Coord × Coord) (l : List (ℕ × String)) (g : Graph) (id : String) :
    (getAttrs (placeNodes pos g l) id).map f = (getAttrs g id).map f := by
  unfold placeNodes
  exact foldl_pres_state (fun g' => (getAttrs g' id).map f) _
    (fun g' p => proj_setNodeXY f hf g' p.2 (pos p.1).1 (pos p.1).2 id) l g

theorem proj_wordStep {β : Type} (f : NodeAttrs → β)
    (hf : ∀ (a : NodeAttrs) (x y : Coord), f { a with x := x, y := y } = f a)
    (base g : Graph) (p : ℕ × String) (id : String) :
    (getAttrs (wordStep base g p) id).map f = (getAttrs g id).map f := by
  simp only [wordStep]
  split
  · rfl
  · apply proj_placeNodes f hf

theorem proj_radialStep {β : Type} (f : NodeAttrs → β)
    (hf : ∀ (a : NodeAttrs) (x y : Coord), f { a with x := x, y := y } = f a)
    (base g : Graph) (p : ℕ × String) (id : String) :
    (getAttrs (radialStep base g p) id).map f = (getAttrs g id).map f := by
  simp only [radialStep]
  split
  · rfl
  · apply proj_placeNodes f hf

theorem proj_applyWordLayout {β : Type} (f : NodeAttrs → β)
    (hf : ∀ (a : NodeAttrs) (x y : Coord), f { a with x := x, y := y } = f a)
    (g : Graph) (id : String) :
    (getAttrs (applyWordLayout g) id).map f = (getAttrs g id).map f := by
  unfold applyWordLayout
  exact foldl_pres_state (fun g' => (getAttrs g' id).map f) (wordStep g)
    (fun g' p => proj_wordStep f hf g g' p id) typeOrder.enum g

theorem proj_applyRadialLayout {β : Type} (f : NodeAttrs → β)
    (hf : ∀ (a : NodeAttrs) (x y : Coord), f { a with x := x, y := y } = f a)
    (g : Graph) (id : String) :
    (getAttrs (applyRadialLayout g) id).map f = (getAttrs g id).map f := by
  unfold applyRadialLayout
  exact foldl_pres_state (fun g' => (getAttrs g' id).map f) (radialStep g)
    (fun g' p => proj_radialStep f hf g g' p id) typeOrder.enum g

/-! ## Edge phase lemmas -/

theorem nodes_processEdge (d : Bool) (i : ℕ) (st : EdgeState) (ev : RawEdgeVal) :
    (processEdge d i st ev).graph.nodes = st.graph.nodes := by
  rcases ev with _ | e
  · rfl
  · simp only [processEdge]
    split_ifs <;> rfl

theorem nodes_processEdges (d : Bool) (es : List (ℕ × RawEdgeVal)) (st : EdgeState) :
    (processEdges d st es).graph.nodes = st.graph.nodes := by
  unfold processEdges
  exact foldl_pres_state (fun s => s.graph.nodes) _
    (fun s p => nodes_processEdge d p.1 s p.2) es st

theorem edgeSize_ne_zero (x : ℚ) : max x (1.5 : ℚ) ≠ 0 := by
  intro h
  have hle := le_max_right x (1.5 : ℚ)
  rw [h] at hle
  norm_num at hle

theorem genEdgeId_ne_empty (s t : String) (i : ℕ) : genEdgeId s t i ≠ "" := by
  unfold genEdgeId
  intro h
  have hlen := congrArg String.length h
  simp only [String.length_append] at hlen
  simp at hlen
  exact absurd hlen.1.1.1.1.1 (by decide)

theorem jsStrOr_ne_empty (v : Option String) (d : String) (hd : d ≠ "") :
    jsStrOr v d ≠ "" := by
  unfold jsStrOr
  rcases v with _ | s
  · exact hd
  · by_cases hs : s = "" <;> simp [hs, hd]

theorem processEdge_accept (d : Bool) (idx : ℕ) (st : EdgeState) (e : RawEdge)
    (h1 : truthy e.source = true) (h2 : truthy e.target = true)
    (h3 : jsTrim (jsToString e.source) ≠ "") (h4 : jsTrim (jsToString e.target) ≠ "")
    (h5 : (jsTrim (jsToString e.source) ++ "→" ++ jsTrim (jsToString e.target)) ∉ st.added)
    (h6 : hasNode st.graph (jsTrim (jsToString e.source)) = true)
    (h7 : hasNode st.graph (jsTrim (jsToString e.target)) = true)
    (h8 : hasEdgeKey st.graph
      (jsStrOr e.id (genEdgeId (jsTrim (jsToString e.source)) (jsTrim (jsToString e.target)) idx))
        = false) :
    processEdge d idx st (.obj e) =
      { graph := addEdgeWithKey st.graph
          (jsStrOr e.id (genEdgeId (jsTrim (jsToString e.source)) (jsTrim (jsToString e.target)) idx))
          (jsTrim (jsToString e.source)) (jsTrim (jsToString e.target))
          { size := if d then max (jsNumOr e.size 2 * 0.8) 1.5 else max (jsNumOr e.size 2) 1.5
            color := jsStrOr e.color "#60a5fa" ++ "DD"
            displayType := "line"
            relationshipType := jsStrOr e.type "" }
        added := (jsTrim (jsToString e.source) ++ "→" ++ jsTrim (jsToString e.target)) :: st.added
        dup := st.dup } := by
  have h9 : (if d = true then max (jsNumOr e.size 2 * 0.8) 1.5
      else max (jsNumOr e.size 2) 1.5) ≠ 0 := by
    split <;> exact edgeSize_ne_zero _
  have h10 : jsStrOr e.id
      (genEdgeId (jsTrim (jsToString e.source)) (jsTrim (jsToString e.target)) idx) ≠ "" :=
    jsStrOr_ne_empty _ _ (genEdgeId_ne_empty _ _ _)
  simp only [processEdge, h1, h2, Bool.not_true, Bool.false_or, Bool.or_self, if_false,
    h3, h4, decide_eq_true_eq, h5, h6, h7, h8, h9, h10, Bool.not_false]
  simp [h3, h4, h5, h9, h10]

theorem processEdges_dup_run (d : Bool) (a b : String) (ha : a ≠ "") (hb : b ≠ "")
    (hta : jsTrim a = a) (htb : jsTrim b = b) :
    ∀ (l : List (ℕ × RawEdgeVal)) (st : EdgeState),
    (a ++ "→" ++ b) ∈ st.added →
    (∀ p ∈ l, ∃ e, p.2 = RawEdgeVal.obj e ∧ e.source = .vStr a ∧ e.target = .vStr b) →
    processEdges d st l = { st with dup := st.dup + l.length } := by
  intro l
  induction l with
  | nil =>
    intro st hmem _
    simp [processEdges]
  | cons p t ih =>
    intro st hmem hl
    obtain ⟨e, hpe, hsrc, htgt⟩ := hl p (List.mem_cons_self _ _)
    have hstep : processEdge d p.1 st p.2 = { st with dup := st.dup + 1 } := by
      rw [hpe]
      simp only [processEdge, hsrc, htgt, jsToString, hta, htb]
      simp [truthy, ha, hb, hmem]
    have hrun : processEdges d st (p :: t) = processEdges d { st with dup := st.dup + 1 } t := by
      unfold processEdges
      rw [List.foldl_cons, hstep]
    rw [hrun, ih _ (by simpa using hmem)
      (fun p' hp' => hl p' (List.mem_cons_of_mem _ hp'))]
    have : st.dup + 1 + t.length = st.dup + (t.length + 1) := by omega
    simp [this]

/-! ## The section map characterized -/

/-- The coerced ids of the `"Section"`-typed records, in raw order. -/
def sectionIdsOf (ns : List RawNode) : List String :=
  (ns.filter (fun r => r.type == JsValue.vStr "Section")).map (fun r => jsToString r.id)

/-- First occurrences of a list of strings relative to an already-seen set. -/
def firstOccs (seen : List String) : List String → List String
  | [] => []
  | s :: t => if s ∈ seen then firstOccs seen t else s :: firstOccs (s :: seen) t

theorem firstOccs_congr : ∀ (l : List String) (seen seen' : List String),
    (∀ x, x ∈ seen ↔ x ∈ seen') → firstOccs seen l = firstOccs seen' l := by
  intro l
  induction l with
  | nil => intro seen seen' _; rfl
  | cons s t ih =>
    intro seen seen' h
    simp only [firstOccs]
    by_cases hm : s ∈ seen
    · rw [if_pos hm, if_pos ((h _).mp hm)]
      exact ih seen seen' h
    · rw [if_neg hm, if_neg (fun hc => hm ((h _).mpr hc))]
      have h2 : ∀ x, x ∈ s :: seen ↔ x ∈ s :: seen' := by
        intro x
        simp [h x]
      rw [ih _ _ h2]

theorem mem_firstOccs {i : String} : ∀ {l seen : List String},
    i ∈ firstOccs seen l ↔ (i ∈ l ∧ i ∉ seen) := by
  intro l
  induction l with
  | nil => intro seen; simp [firstOccs]
  | cons s t ih =>
    intro seen
    simp only [firstOccs, List.mem_cons]
    by_cases hm : s ∈ seen
    · rw [if_pos hm, ih]
      constructor
      · rintro ⟨h1, h2⟩
        exact ⟨Or.inr h1, h2⟩
      · rintro ⟨h1 | h1, h2⟩
        · exact absurd (h1 ▸ hm) h2
        · exact ⟨h1, h2⟩
    · rw [if_neg hm]
      simp only [List.mem_cons, ih]
      by_cases hic : i = s
      · subst hic
        simp [hm]
      · simp [hic]

theorem firstOccs_nodup : ∀ {l seen : List String}, (firstOccs seen l).Nodup := by
  intro l
  induction l with
  | nil => intro seen; simp [firstOccs]
  | cons s t ih =>
    intro seen
    simp only [firstOccs]
    by_cases hm : s ∈ seen
    · rw [if_pos hm]
      exact ih
    · rw [if_neg hm]
      refine List.nodup_cons.mpr ⟨?_, ih⟩
      intro hc
      exact (mem_firstOccs.mp hc).2 (List.mem_cons_self _ _)

theorem toFinset_firstOccs (seen l : List String) :
    (firstOccs seen l).toFinset = l.toFinset \ seen.toFinset := by
  ext i
  simp [mem_firstOccs]

theorem lookup_isSome_iff {β : Type} (l : List (String × β)) (a : String) :
    (l.lookup a).isSome ↔ a ∈ l.map Prod.fst := by
  induction l with
  | nil => simp [List.lookup]
  | cons h t ih =>
    by_cases hh : a = h.1
    · simp [List.lookup, hh]
    · have hb : (a == h.1) = false := by simpa using hh
      simp only [List.lookup, hb, List.map_cons, List.mem_cons]
      rw [ih]
      simp [hh]

theorem enumFrom_add {α : Type} (l : List α) : ∀ (k c : ℕ),
    l.enumFrom (k + c) = (l.enumFrom k).map (fun p => (p.1 + c, p.2)) := by
  induction l with
  | nil => intro k c; rfl
  | cons a t ih =>
    intro k c
    simp only [List.enumFrom_cons, List.map_cons]
    refine congrArg _ ?_
    rw [show k + c + 1 = k + 1 + c by omega]
    exact ih (k + 1) c

theorem buildSectionMap_aux : ∀ (ns : List RawNode) (m : List (String × ℕ)),
    (ns.foldl (fun acc r =>
      if r.type = .vStr "Section" then
        let nodeId := jsToString r.id
        if (acc.1.lookup nodeId).isSome then acc
        else (acc.1 ++ [(nodeId, acc.2 + 1)], acc.2 + 1)
      else acc) (m, m.length)).1
    = m ++ ((firstOccs (m.map Prod.fst) (sectionIdsOf ns)).enumFrom (m.length + 1)).map
        (fun p => (p.2, p.1)) := by
  intro ns
  induction ns with
  | nil =>
    intro m
    simp [sectionIdsOf, firstOccs]
  | cons r t ih =>
    intro m
    rw [List.foldl_cons]
    by_cases hsec : r.type = JsValue.vStr "Section"
    · have hids : sectionIdsOf (r :: t) = jsToString r.id :: sectionIdsOf t := by
        simp [sectionIdsOf, hsec]
      by_cases hdup : ((m.lookup (jsToString r.id)).isSome : Prop)
      · have hmem : jsToString r.id ∈ m.map Prod.fst := (lookup_isSome_iff m _).mp hdup
        have hstep : (if r.type = .vStr "Section" then
            if ((m, m.length).1.lookup (jsToString r.id)).isSome then (m, m.length)
            else ((m, m.length).1 ++ [(jsToString r.id, (m, m.length).2 + 1)], (m, m.length).2 + 1)
          else (m, m.length)) = (m, m.length) := by
          simp [hsec, hdup]
        rw [hstep, ih m, hids]
        simp only [firstOccs, hmem, if_pos]
      · have hmem : jsToString r.id ∉ m.map Prod.fst :=
          fun hc => hdup ((lookup_isSome_iff m _).mpr hc)
        have hstep : (if r.type = .vStr "Section" then
            if ((m, m.length).1.lookup (jsToString r.id)).isSome then (m, m.length)
            else ((m, m.length).1 ++ [(jsToString r.id, (m, m.length).2 + 1)], (m, m.length).2 + 1)
          else (m, m.length))
          = (m ++ [(jsToString r.id, m.length + 1)], m.length + 1) := by
          simp [hsec, hdup]
        rw [hstep]
        have hlen : (m ++ [(jsToString r.id, m.length + 1)]).length = m.length + 1 := by
          simp
        have := ih (m ++ [(jsToString r.id, m.length + 1)])
        rw [hlen] at this
        rw [this, hids]
        simp only [firstOccs, hmem, if_neg, List.enumFrom_cons]
        rw [firstOccs_congr (sectionIdsOf t)
          ((m ++ [(jsToString r.id, m.length + 1)]).map Prod.fst)
          (jsToString r.id :: m.map Prod.fst)
          (by intro x; simp [or_comm])]
        simp [List.append_assoc]
    · have hstep : (if r.type = .vStr "Section" then
          if ((m, m.length).1.lookup (jsToString r.id)).isSome then (m, m.length)
          else ((m, m.length).1 ++ [(jsToString r.id, (m, m.length).2 + 1)], (m, m.length).2 + 1)
        else (m, m.length)) = (m, m.length) := by
        simp [hsec]
      have hids : sectionIdsOf (r :: t) = sectionIdsOf t := by
        have : (r.type == JsValue.vStr "Section") = false := by simpa using hsec
        simp [sectionIdsOf, this]
      rw [hstep, ih m, hids]

theorem buildSectionMap_eq (ns : List RawNode) :
    buildSectionMap ns
      = ((firstOccs [] (sectionIdsOf ns)).enumFrom 1).map (fun p => (p.2, p.1)) := by
  unfold buildSectionMap
  have := buildSectionMap_aux ns []
  simpa using this

theorem lookup_enum_swap : ∀ (l : List String) (c k : ℕ) (id : String),
    l.Nodup → l[k]? = some id →
    ((l.enumFrom c).map (fun p => (p.2, p.1))).lookup id = some (c + k) := by
  intro l
  induction l with
  | nil => intro c k id _ h; simp at h
  | cons s t ih =>
    intro c k id hnd h
    rcases k with _ | k
    · have hsid : s = id := by simpa using h
      subst hsid
      simp [List.enumFrom_cons, List.lookup]
    · have h' : t[k]? = some id := by simpa using h
      have hmem : id ∈ t := List.getElem?_mem h'
      have hs : s ≠ id := fun he => (List.nodup_cons.mp hnd).1 (he ▸ hmem)
      simp only [List.enumFrom_cons, List.map_cons, List.lookup]
      have hb : (id == s) = false := by
        simp
        exact fun he => hs he.symm
      rw [hb]
      rw [ih (c + 1) k id (List.nodup_cons.mp hnd).2 h']
      simp only []
      refine congrArg _ ?_
      omega

/-! ## Build-level helper lemmas -/

theorem hasNode_eq_of_nodes_eq {g g' : Graph} (h : g.nodes = g'.nodes) (id : String) :
    hasNode g id = hasNode g' id := by
  unfold hasNode
  rw [getAttrs_eq_of_nodes_eq h]

/-- The graph the build hands to ForceAtlas2 has the nodes of the
layouted node-phase graph: the edge loop never touches the node set. -/
theorem build_pos_nodes (ns : List RawNode) (es : List RawEdgeVal) (m : Bool)
    (h : 0 < ns.length) :
    (buildGraphFromData ns es m).graph.nodes =
      (if m then applyWordLayout (ns.foldl (addRawNode (buildSectionMap ns)) Graph.empty)
       else applyRadialLayout (ns.foldl (addRawNode (buildSectionMap ns)) Graph.empty)).nodes := by
  simp only [buildGraphFromData, if_pos h]
  split
  · exact nodes_processEdges _ _ _
  · rfl

theorem build_fa2_eq (ns : List RawNode) (es : List RawEdgeVal) (m : Bool) :
    (buildGraphFromData ns es m).fa2Applied
      = decide (0 < (buildGraphFromData ns es m).graph.order) := by
  simp only [buildGraphFromData]
  split
  · rfl
  · rfl

theorem keysOf_layout_ite (m : Bool) (g : Graph) :
    keysOf (if m then applyWordLayout g else applyRadialLayout g) = keysOf g := by
  cases m
  · exact keysOf_applyRadialLayout g
  · exact keysOf_applyWordLayout g

theorem keysOf_nodePhase (ns : List RawNode) :
    keysOf (ns.foldl (addRawNode (buildSectionMap ns)) Graph.empty) = freshIds [] ns := by
  rw [keysOf_foldl_addRawNode]
  rfl

theorem nodePhase_keys_nodup (ns : List RawNode) :
    (keysOf (ns.foldl (addRawNode (buildSectionMap ns)) Graph.empty)).Nodup := by
  rw [keysOf_nodePhase]
  exact freshIds_nodup

theorem build_fa2_true (ns : List RawNode) (es : List RawEdgeVal) (m : Bool)
    (h : ns ≠ []) : (buildGraphFromData ns es m).fa2Applied = true := by
  have hlen : 0 < ns.length := List.length_pos.mpr h
  rw [build_fa2_eq]
  have hnodes := build_pos_nodes ns es m hlen
  have horder : 0 < (buildGraphFromData ns es m).graph.order := by
    show 0 < (buildGraphFromData ns es m).graph.nodes.length
    rw [hnodes]
    have hk : ((if m then applyWordLayout (ns.foldl (addRawNode (buildSectionMap ns)) Graph.empty)
        else applyRadialLayout (ns.foldl (addRawNode (buildSectionMap ns)) Graph.empty)).nodes).length
        = (freshIds ([] : List String) ns).length := by
      rw [show ((if m then applyWordLayout (ns.foldl (addRawNode (buildSectionMap ns)) Graph.empty)
          else applyRadialLayout (ns.foldl (addRawNode (buildSectionMap ns)) Graph.empty)).nodes).length
          = (keysOf (if m then applyWordLayout (ns.foldl (addRawNode (buildSectionMap ns)) Graph.empty)
            else applyRadialLayout (ns.foldl (addRawNode (buildSectionMap ns)) Graph.empty))).length
        from (List.length_map _ _).symm]
      rw [keysOf_layout_ite, keysOf_nodePhase]
    rw [hk]
    rcases ns with _ | ⟨r, t⟩
    · simp at h
    · simp only [freshIds]
      rw [if_neg (by simp)]
      simp
  simpa using horder

/-- The graph entering the edge phase carries no edges. -/
theorem layout_ite_edges (m : Bool) (ns : List RawNode) :
    (if m then applyWordLayout (ns.foldl (addRawNode (buildSectionMap ns)) Graph.empty)
     else applyRadialLayout (ns.foldl (addRawNode (buildSectionMap ns)) Graph.empty)).edges
      = [] := by
  cases m
  · rw [if_neg (by simp), edges_applyRadialLayout, edges_foldl_addRawNode]
    rfl
  · rw [if_pos rfl, edges_applyWordLayout, edges_foldl_addRawNode]
    rfl

theorem layout_untouched_of_not_typeOrder (g : Graph) (hnd : (keysOf g).Nodup)
    (id : String) (a : NodeAttrs) (m : Bool)
    (ha : getAttrs (if m then applyWordLayout g else applyRadialLayout g) id = some a)
    (hcat : nodeCategory a ∉ typeOrder) :
    getAttrs g id = some a := by
  have hproj : (getAttrs (if m then applyWordLayout g else applyRadialLayout g) id).map
        nodeCategory = (getAttrs g id).map nodeCategory := by
    cases m
    · exact proj_applyRadialLayout nodeCategory (fun a x y => rfl) g id
    · exact proj_applyWordLayout nodeCategory (fun a x y => rfl) g id
  rw [ha] at hproj
  cases ha0 : getAttrs g id with
  | none =>
    rw [ha0] at hproj
    simp at hproj
  | some a0 =>
    rw [ha0] at hproj
    have hc0 : nodeCategory a0 = nodeCategory a := by
      simpa using hproj.symm
    have huntouched : ∀ (p : ℕ × String), p ∈ typeOrder.enum → id ∉ nodesOfType g p.2 := by
      intro p hp hc
      have hsnd : p.2 ∈ typeOrder := by
        have hmm : p.2 ∈ typeOrder.enum.map Prod.snd := List.mem_map_of_mem Prod.snd hp
        rwa [List.enum_map_snd] at hmm
      have hcp : nodeCategory a = p.2 := by
        rw [← hc0]
        exact (mem_nodesOfType_iff hnd ha0 p.2).mp hc
      rw [← hcp] at hsnd
      exact hcat hsnd
    have heq : getAttrs (if m then applyWordLayout g else applyRadialLayout g) id
        = getAttrs g id := by
      cases m
      · rw [if_neg Bool.false_ne_true]
        unfold applyRadialLayout
        exact foldl_getAttrs_untouched (radialStep g) id typeOrder.enum g
          (fun g' p hp => radialStep_not_mem g g' p id (huntouched p hp))
      · rw [if_pos rfl]
        unfold applyWordLayout
        exact foldl_getAttrs_untouched (wordStep g) id typeOrder.enum g
          (fun g' p hp => wordStep_not_mem g g' p id (huntouched p hp))
    rw [heq, ha0] at ha
    exact ha

/-! ## Claim theorems -/

/-- Sample raw node record with a given id string and type value and no
optional fields, used for concrete counterexamples and witnesses. -/
def sampleNode (i : String) (t : JsValue) : RawNode :=
  ⟨.vStr i, t, none, none, none, none⟩

/-- Claim C1, counterexample.  C1 states that for the input
`{nodes:[], edges:[]}` the force-directed refinement stage is skipped
entirely for the placeholder graph.  In the source the ForceAtlas2 pass is
guarded only by `graph.order > 0`, which the one-node placeholder graph
satisfies, so the refinement runs on it: the refinement flag of the build
is `true`, not `false`. -/
theorem C1_counterexample : (buildGraphFromData [] [] false).fa2Applied = true := rfl

/-- Claim C1 (amended): for the input `{nodes:[], edges:[]}` (in either
visualization mode) the build produces exactly one output node — key
`"empty"`, category `"Empty"`, the fixed label, fixed initial position
(50, 50) — no edges and a zero duplicate count, and the force-directed
refinement stage is NOT skipped: it runs on the placeholder graph as well,
since the source guards it only with `graph.order > 0`. -/
theorem C1_empty_input (m : Bool) :
    buildGraphFromData [] [] m =
      { graph :=
          { nodes := [("empty",
              { label := "No data yet - upload a .flextext file!"
                size := 20
                color := "#64748b"
                nodeType := JsValue.vStr "Empty"
                properties := none
                x := Coord.q 50
                y := Coord.q 50 })]
            edges := [] }
        duplicateCount := 0
        fa2Applied := true } := by
  cases m <;> rfl

/-- Claim C2, counterexample.  C2 states that a category absent from the
node set reserves no gap, so present categories get consecutive level
indices with no empty level skipped.  Then a node set whose only category
is Section (Text absent) would put Section at level 0, i.e. y = 0 in the
focused banded layout.  The source instead uses the category's fixed index
in the ordering (`typeOrder.forEach((type, levelIndex))`), so the single
Section node is placed at y = 1 · 100 = 100: the absent Text level leaves
a gap. -/
theorem C2_counterexample :
    ((getAttrs (buildGraphFromData [sampleNode "s1" (.vStr "Section")] [] true).graph
        "s1").map (fun a => a.y) = some (Coord.q (((1 : ℕ) : ℚ) * 100)))
    ∧ Coord.q (((1 : ℕ) : ℚ) * 100) ≠ Coord.q (((0 : ℕ) : ℚ) * 100) := by
  constructor
  · have hb := build_pos_nodes [sampleNode "s1" (.vStr "Section")] [] true (by decide)
    rw [getAttrs_eq_of_nodes_eq hb, if_pos rfl]
    rw [getAttrs_applyWordLayout _ (nodePhase_keys_nodup _) 1 "Section" (by decide) 0 "s1"
      (by decide)]
    have hs : hasNode ([sampleNode "s1" (.vStr "Section")].foldl
        (addRawNode (buildSectionMap [sampleNode "s1" (.vStr "Section")])) Graph.empty)
        "s1" = true := by decide
    rcases Option.isSome_iff_exists.mp hs with ⟨a, ha⟩
    rw [ha]
    rfl
  · intro h
    have h2 : ((1 : ℕ) : ℚ) * 100 = ((0 : ℕ) : ℚ) * 100 := by injection h
    norm_num at h2

/-- Claim C2 (amended): an absent category contributes no band/ring (no
node is placed for it), but the present categories are NOT re-indexed
consecutively: a present category keeps the level index it has in the
fixed ordering (Text 0, Section 1, Phrase 2, Word 3, Morpheme 4, Gloss 5),
regardless of which other categories are present — in the focused layout
its band sits at y = levelIndex·100, in the overview layout its ring has
radius levelIndex·200. -/
theorem C2_fixed_level_indices (g : Graph) (hnd : (keysOf g).Nodup)
    (L : ℕ) (t : String) (hL : typeOrder[L]? = some t)
    (i : ℕ) (id : String) (hi : (nodesOfType g t)[i]? = some id) :
    ((getAttrs (applyWordLayout g) id).map (fun a => a.y) = some (Coord.q ((L : ℚ) * 100)))
    ∧ ((getAttrs (applyRadialLayout g) id).map (fun a => a.x)
        = some (Coord.rcos ((L : ℚ) * 200) i (nodesOfType g t).length))
    ∧ ((getAttrs (applyRadialLayout g) id).map (fun a => a.y)
        = some (Coord.rsin ((L : ℚ) * 200) i (nodesOfType g t).length)) := by
  have hmem := List.getElem?_mem hi
  rcases exists_attrs_of_mem_nodesOfType hnd hmem with ⟨a, ha, hcat⟩
  refine ⟨?_, ?_, ?_⟩
  · rw [getAttrs_applyWordLayout g hnd L t hL i id hi, ha]
    rfl
  · rw [getAttrs_applyRadialLayout g hnd L t hL i id hi, ha]
    rfl
  · rw [getAttrs_applyRadialLayout g hnd L t hL i id hi, ha]
    rfl

/-- Concrete one-node graph (a Section node) used in witnesses. -/
def wG : Graph :=
  ⟨[("s1", ⟨"1", 18, "#64748b", .vStr "Section", some [], .q 0, .q 0⟩)], []⟩

/-- Witness for `C2_fixed_level_indices` at the graph `wG`: Section is the
only present category and still sits at its fixed level index 1. -/
theorem C2_fixed_level_indices_witness :
    ((keysOf wG).Nodup ∧ typeOrder[1]? = some "Section"
      ∧ (nodesOfType wG "Section")[0]? = some "s1")
    ∧ (((getAttrs (applyWordLayout wG) "s1").map (fun a => a.y)
          = some (Coord.q (((1 : ℕ) : ℚ) * 100)))
      ∧ ((getAttrs (applyRadialLayout wG) "s1").map (fun a => a.x)
          = some (Coord.rcos (((1 : ℕ) : ℚ) * 200) 0 (nodesOfType wG "Section").length))
      ∧ ((getAttrs (applyRadialLayout wG) "s1").map (fun a => a.y)
          = some (Coord.rsin (((1 : ℕ) : ℚ) * 200) 0 (nodesOfType wG "Section").length))) :=
  ⟨⟨by decide, by decide, by decide⟩,
   C2_fixed_level_indices wG (by decide) 1 "Section" (by decide) 0 "s1" (by decide)⟩

/-- Claim C3, counterexample.  C3 states that every raw node record whose id
does not coerce to a non-empty string is rejected.  The build performs no
such check: the record with id `""` (which coerces to the empty string)
still produces an output node under the empty-string id. -/
theorem C3_counterexample :
    hasNode (buildGraphFromData [sampleNode "" JsValue.vUndef] [] false).graph "" = true
    ∧ (buildGraphFromData [sampleNode "" JsValue.vUndef] [] false).graph.nodes.length = 1 :=
  ⟨rfl, rfl⟩

/-- Claim C3 (amended): node records are never rejected for the shape of
their id.  Every raw record's id is coerced with `String(...)` (`null` →
`"null"`, `undefined` → `"undefined"`, the empty string stays empty), and
the coerced id always names an output node; a record is only skipped when
its coerced id duplicates an already-added node's id. -/
theorem C3_no_id_validation (ns : List RawNode) (es : List RawEdgeVal) (m : Bool)
    (h : ns ≠ []) (r : RawNode) (hr : r ∈ ns) :
    hasNode (buildGraphFromData ns es m).graph (jsToString r.id) = true := by
  have hlen : 0 < ns.length := List.length_pos.mpr h
  have hnodes := build_pos_nodes ns es m hlen
  rw [hasNode_eq_of_nodes_eq hnodes]
  rw [hasNode_iff_mem_keys, keysOf_layout_ite, keysOf_nodePhase]
  exact mem_freshIds.mpr ⟨List.mem_map.mpr ⟨r, hr, rfl⟩, by simp⟩

/-- Witness for `C3_no_id_validation`: the empty-string id record. -/
theorem C3_no_id_validation_witness :
    (([sampleNode "" JsValue.vUndef] : List RawNode) ≠ []
      ∧ sampleNode "" JsValue.vUndef ∈ [sampleNode "" JsValue.vUndef])
    ∧ hasNode (buildGraphFromData [sampleNode "" JsValue.vUndef] [] false).graph
        (jsToString (sampleNode "" JsValue.vUndef).id) = true :=
  ⟨⟨by decide, by decide⟩,
   C3_no_id_validation [sampleNode "" JsValue.vUndef] [] false (by decide)
     (sampleNode "" JsValue.vUndef) (by decide)⟩

/-- Claim C10: any retained node whose resolved category (`nodeType ||
"Other"`) is not one of the six ordered categories — an unknown type
string, a missing type, or the explicit `"Other"` — is assigned no
position by either initial layout strategy: it enters the force-directed
refinement stage (which does run) at the placeholder position (0, 0). -/
theorem C10_unknown_category (ns : List RawNode) (es : List RawEdgeVal) (m : Bool)
    (h : ns ≠ []) (id : String) (a : NodeAttrs)
    (ha : getAttrs (buildGraphFromData ns es m).graph id = some a)
    (hcat : nodeCategory a ∉ typeOrder) :
    a.x = Coord.q 0 ∧ a.y = Coord.q 0
    ∧ (buildGraphFromData ns es m).fa2Applied = true := by
  have hlen : 0 < ns.length := List.length_pos.mpr h
  have hnodes := build_pos_nodes ns es m hlen
  have hgl : getAttrs
      (if m then applyWordLayout (ns.foldl (addRawNode (buildSectionMap ns)) Graph.empty)
       else applyRadialLayout (ns.foldl (addRawNode (buildSectionMap ns)) Graph.empty)) id
      = some a := by
    rw [← getAttrs_eq_of_nodes_eq hnodes]
    exact ha
  have hg1 := layout_untouched_of_not_typeOrder _ (nodePhase_keys_nodup ns) id a m hgl hcat
  rw [getAttrs_foldl_addRawNode] at hg1
  have hempty : getAttrs Graph.empty id = none := rfl
  rw [hempty, Option.none_or] at hg1
  cases hf : ns.find? (fun r => jsToString r.id == id) with
  | none =>
    rw [hf] at hg1
    simp at hg1
  | some r =>
    rw [hf] at hg1
    have har : deriveAttrs (buildSectionMap ns) r = a := by
      simpa using hg1
    refine ⟨?_, ?_, build_fa2_true ns es m h⟩
    · rw [← har]
      rfl
    · rw [← har]
      rfl

/-- Witness for `C10_unknown_category`: a node of unknown type `"Alien"`. -/
theorem C10_unknown_category_witness :
    (([sampleNode "x" (.vStr "Alien")] : List RawNode) ≠ []
      ∧ getAttrs (buildGraphFromData [sampleNode "x" (.vStr "Alien")] [] false).graph "x"
          = some ⟨"x", 10, "#64748b", .vStr "Alien", some [], .q 0, .q 0⟩
      ∧ nodeCategory ⟨"x", 10, "#64748b", .vStr "Alien", some [], .q 0, .q 0⟩ ∉ typeOrder)
    ∧ ((⟨"x", 10, "#64748b", .vStr "Alien", some [], .q 0, .q 0⟩ : NodeAttrs).x = Coord.q 0
      ∧ (⟨"x", 10, "#64748b", .vStr "Alien", some [], .q 0, .q 0⟩ : NodeAttrs).y = Coord.q 0
      ∧ (buildGraphFromData [sampleNode "x" (.vStr "Alien")] [] false).fa2Applied = true) :=
  ⟨⟨by decide, by decide, by decide⟩,
   C10_unknown_category [sampleNode "x" (.vStr "Alien")] [] false (by decide) "x"
     ⟨"x", 10, "#64748b", .vStr "Alien", some [], .q 0, .q 0⟩ (by decide) (by decide)⟩

/-- Claim C9: in the radial (overview) layout, the node at in-category
index i of the category at level index L (with N nodes present) is placed
at exactly radius L·200 and angle 2π·i/N — its stored coordinates are
x = (L·200)·cos(2π·i/N) and y = (L·200)·sin(2π·i/N) — and on ring 0 the
radius is 0, so every ring-0 node is placed at (0, 0). -/
theorem C9_radial_positions (g : Graph) (hnd : (keysOf g).Nodup)
    (L : ℕ) (t : String) (hL : typeOrder[L]? = some t)
    (i : ℕ) (id : String) (hi : (nodesOfType g t)[i]? = some id) :
    (getAttrs (applyRadialLayout g) id
        = (getAttrs g id).map (fun a =>
            { a with
              x := Coord.rcos ((L : ℚ) * 200) i (nodesOfType g t).length
              y := Coord.rsin ((L : ℚ) * 200) i (nodesOfType g t).length }))
    ∧ (Coord.rcos ((L : ℚ) * 200) i (nodesOfType g t).length).toReal
        = (((L : ℚ) * 200 : ℚ) : ℝ)
            * Real.cos (2 * Real.pi * i / (nodesOfType g t).length)
    ∧ (Coord.rsin ((L : ℚ) * 200) i (nodesOfType g t).length).toReal
        = (((L : ℚ) * 200 : ℚ) : ℝ)
            * Real.sin (2 * Real.pi * i / (nodesOfType g t).length)
    ∧ (L = 0 →
        (Coord.rcos ((L : ℚ) * 200) i (nodesOfType g t).length).toReal = 0
        ∧ (Coord.rsin ((L : ℚ) * 200) i (nodesOfType g t).length).toReal = 0) := by
  refine ⟨getAttrs_applyRadialLayout g hnd L t hL i id hi, rfl, rfl, ?_⟩
  intro h0
  subst h0
  constructor
  · simp [Coord.toReal]
  · simp [Coord.toReal]

/-- Concrete one-Text-node graph used in witnesses (ring 0). -/
def tG : Graph :=
  ⟨[("t1", ⟨"t1", 25, "#64748b", .vStr "Text", some [], .q 0, .q 0⟩)], []⟩

/-- Witness for `C9_radial_positions` at the graph `tG` (level 0). -/
theorem C9_radial_positions_witness :
    ((keysOf tG).Nodup ∧ typeOrder[0]? = some "Text"
      ∧ (nodesOfType tG "Text")[0]? = some "t1")
    ∧ ((getAttrs (applyRadialLayout tG) "t1"
        = (getAttrs tG "t1").map (fun a =>
            { a with
              x := Coord.rcos (((0 : ℕ) : ℚ) * 200) 0 (nodesOfType tG "Text").length
              y := Coord.rsin (((0 : ℕ) : ℚ) * 200) 0 (nodesOfType tG "Text").length }))
      ∧ (Coord.rcos (((0 : ℕ) : ℚ) * 200) 0 (nodesOfType tG "Text").length).toReal
          = ((((0 : ℕ) : ℚ) * 200 : ℚ) : ℝ)
              * Real.cos (2 * Real.pi * ((0 : ℕ) : ℝ) / (nodesOfType tG "Text").length)
      ∧ (Coord.rsin (((0 : ℕ) : ℚ) * 200) 0 (nodesOfType tG "Text").length).toReal
          = ((((0 : ℕ) : ℚ) * 200 : ℚ) : ℝ)
              * Real.sin (2 * Real.pi * ((0 : ℕ) : ℝ) / (nodesOfType tG "Text").length)
      ∧ ((0 : ℕ) = 0 →
          (Coord.rcos (((0 : ℕ) : ℚ) * 200) 0 (nodesOfType tG "Text").length).toReal = 0
          ∧ (Coord.rsin (((0 : ℕ) : ℚ) * 200) 0 (nodesOfType tG "Text").length).toReal = 0)) :=
  ⟨⟨by decide, by decide, by decide⟩,
   C9_radial_positions tG (by decide) 0 "Text" (by decide) 0 "t1" (by decide)⟩

/-- Core (non-positional) attributes of a stored node: label, size, color,
properties. -/
def nodeCore (a : NodeAttrs) : String × ℚ × String × Option (List (String × String)) :=
  (a.label, a.size, a.color, a.properties)

/-- Claim C6: the output node count equals the number of distinct coerced
node ids, and the retained node under any id carries the attributes
(label, size, color, properties) derived from the FIRST raw record whose
id coerces to it — never a later duplicate's. -/
theorem C6_first_record_wins (ns : List RawNode) (es : List RawEdgeVal) (m : Bool)
    (h : ns ≠ []) :
    (buildGraphFromData ns es m).graph.nodes.length
        = ((ns.map (fun r => jsToString r.id)).toFinset).card
    ∧ ∀ id : String,
        (getAttrs (buildGraphFromData ns es m).graph id).map nodeCore
          = (ns.find? (fun r => jsToString r.id == id)).map
              (fun r => nodeCore (deriveAttrs (buildSectionMap ns) r)) := by
  have hlen : 0 < ns.length := List.length_pos.mpr h
  have hnodes := build_pos_nodes ns es m hlen
  constructor
  · rw [show (buildGraphFromData ns es m).graph.nodes.length
        = (keysOf (buildGraphFromData ns es m).graph).length from (List.length_map _ _).symm]
    have hk : keysOf (buildGraphFromData ns es m).graph
        = keysOf (if m then applyWordLayout (ns.foldl (addRawNode (buildSectionMap ns)) Graph.empty)
            else applyRadialLayout (ns.foldl (addRawNode (buildSectionMap ns)) Graph.empty)) := by
      unfold keysOf
      rw [hnodes]
    rw [hk, keysOf_layout_ite, keysOf_nodePhase]
    rw [← List.toFinset_card_of_nodup freshIds_nodup, toFinset_freshIds]
    simp
  · intro id
    rw [getAttrs_eq_of_nodes_eq hnodes]
    have hproj : (getAttrs
        (if m then applyWordLayout (ns.foldl (addRawNode (buildSectionMap ns)) Graph.empty)
         else applyRadialLayout (ns.foldl (addRawNode (buildSectionMap ns)) Graph.empty)) id).map
          nodeCore
        = (getAttrs (ns.foldl (addRawNode (buildSectionMap ns)) Graph.empty) id).map nodeCore := by
      cases m
      · rw [if_neg Bool.false_ne_true]
        exact proj_applyRadialLayout nodeCore (fun a x y => rfl) _ id
      · rw [if_pos rfl]
        exact proj_applyWordLayout nodeCore (fun a x y => rfl) _ id
    rw [hproj, getAttrs_foldl_addRawNode]
    rw [show getAttrs Graph.empty id = none from rfl, Option.none_or]
    cases ns.find? (fun r => jsToString r.id == id) <;> rfl

/-- Witness for `C6_first_record_wins`: two records share the id `"a"` with
different labels; the count is 1 and the retained attributes come from the
first record. -/
theorem C6_first_record_wins_witness :
    (([⟨.vStr "a", .vUndef, some "first", none, none, none⟩,
       ⟨.vStr "a", .vUndef, some "second", none, none, none⟩] : List RawNode) ≠ [])
    ∧ ((buildGraphFromData
          [⟨.vStr "a", .vUndef, some "first", none, none, none⟩,
           ⟨.vStr "a", .vUndef, some "second", none, none, none⟩] [] false).graph.nodes.length
        = (([⟨.vStr "a", .vUndef, some "first", none, none, none⟩,
             ⟨.vStr "a", .vUndef, some "second", none, none, none⟩] : List RawNode).map
              (fun r => jsToString r.id)).toFinset.card
      ∧ ∀ id : String,
          (getAttrs (buildGraphFromData
              [⟨.vStr "a", .vUndef, some "first", none, none, none⟩,
               ⟨.vStr "a", .vUndef, some "second", none, none, none⟩] [] false).graph id).map
            nodeCore
          = (([⟨.vStr "a", .vUndef, some "first", none, none, none⟩,
               ⟨.vStr "a", .vUndef, some "second", none, none, none⟩] : List RawNode).find?
                (fun r => jsToString r.id == id)).map
              (fun r => nodeCore (deriveAttrs (buildSectionMap
                [⟨.vStr "a", .vUndef, some "first", none, none, none⟩,
                 ⟨.vStr "a", .vUndef, some "second", none, none, none⟩]) r))) :=
  ⟨by decide,
   C6_first_record_wins
     [⟨.vStr "a", .vUndef, some "first", none, none, none⟩,
      ⟨.vStr "a", .vUndef, some "second", none, none, none⟩] [] false (by decide)⟩

/-- Claim C7: the build's first pass assigns to the distinct coerced ids of
Section-typed records the sequential numbers 1..N in strict first-appearance
order within the raw node sequence (`buildSectionMap` is exactly the
1-based enumeration of the first occurrences), with N the count of distinct
Section node ids; a retained node whose record is Section-typed displays
that number (overriding any explicit label field), and every retained
non-Section node displays its explicit (truthy) label or, if absent, its
coerced id. -/
theorem C7_section_sequential_labels (ns : List RawNode) (es : List RawEdgeVal) (m : Bool)
    (h : ns ≠ []) :
    buildSectionMap ns
        = ((firstOccs [] (sectionIdsOf ns)).enumFrom 1).map (fun p => (p.2, p.1))
    ∧ (buildSectionMap ns).length = (sectionIdsOf ns).toFinset.card
    ∧ ∀ (id : String) (r : RawNode),
        ns.find? (fun r' => jsToString r'.id == id) = some r →
        ((∀ k : ℕ, r.type = JsValue.vStr "Section" →
            (firstOccs [] (sectionIdsOf ns))[k]? = some id →
            (getAttrs (buildGraphFromData ns es m).graph id).map (fun a => a.label)
              = some (toString (k + 1)))
          ∧ (r.type ≠ JsValue.vStr "Section" →
            (getAttrs (buildGraphFromData ns es m).graph id).map (fun a => a.label)
              = some (jsStrOr r.label (jsToString r.id)))) := by
  have hmap := buildSectionMap_eq ns
  refine ⟨hmap, ?_, ?_⟩
  · rw [hmap, List.length_map, List.enumFrom_length]
    rw [← List.toFinset_card_of_nodup firstOccs_nodup, toFinset_firstOccs]
    simp
  · intro id r hfind
    have hlab : (getAttrs (buildGraphFromData ns es m).graph id).map (fun a => a.label)
        = some (nodeLabelOf (buildSectionMap ns) r) := by
      have hlen : 0 < ns.length := List.length_pos.mpr h
      have hnodes := build_pos_nodes ns es m hlen
      rw [getAttrs_eq_of_nodes_eq hnodes]
      have hproj : (getAttrs
          (if m then applyWordLayout (ns.foldl (addRawNode (buildSectionMap ns)) Graph.empty)
           else applyRadialLayout (ns.foldl (addRawNode (buildSectionMap ns)) Graph.empty)) id).map
            (fun a => a.label)
          = (getAttrs (ns.foldl (addRawNode (buildSectionMap ns)) Graph.empty) id).map
              (fun a => a.label) := by
        cases m
        · rw [if_neg Bool.false_ne_true]
          exact proj_applyRadialLayout (fun a => a.label) (fun a x y => rfl) _ id
        · rw [if_pos rfl]
          exact proj_applyWordLayout (fun a => a.label) (fun a x y => rfl) _ id
      rw [hproj, getAttrs_foldl_addRawNode]
      rw [show getAttrs Graph.empty id = none from rfl, Option.none_or, hfind]
      rfl
    have hid : jsToString r.id = id := by
      have := List.find?_some hfind
      simpa using this
    constructor
    · intro k hsec hk
      rw [hlab]
      refine congrArg _ ?_
      have hlook : (buildSectionMap ns).lookup (jsToString r.id) = some (1 + k) := by
        rw [hmap, hid]
        exact lookup_enum_swap (firstOccs [] (sectionIdsOf ns)) 1 k id firstOccs_nodup hk
      simp only [nodeLabelOf, if_pos hsec, hlook]
      rw [show 1 + k = k + 1 by omega]
    · intro hnsec
      rw [hlab]
      refine congrArg _ ?_
      simp only [nodeLabelOf, if_neg hnsec]

/-- Witness for `C7_section_sequential_labels`: Section records appear with
ids s3, s1 (with a Text record in between); they get labels "1", "2" in
first-appearance order. -/
theorem C7_section_sequential_labels_witness :
    (([sampleNode "s3" (.vStr "Section"), sampleNode "t" (.vStr "Text"),
       sampleNode "s1" (.vStr "Section")] : List RawNode) ≠ [])
    ∧ (buildSectionMap
          [sampleNode "s3" (.vStr "Section"), sampleNode "t" (.vStr "Text"),
           sampleNode "s1" (.vStr "Section")]
        = ((firstOccs [] (sectionIdsOf
            [sampleNode "s3" (.vStr "Section"), sampleNode "t" (.vStr "Text"),
             sampleNode "s1" (.vStr "Section")])).enumFrom 1).map (fun p => (p.2, p.1))
      ∧ (buildSectionMap
          [sampleNode "s3" (.vStr "Section"), sampleNode "t" (.vStr "Text"),
           sampleNode "s1" (.vStr "Section")]).length
          = (sectionIdsOf
              [sampleNode "s3" (.vStr "Section"), sampleNode "t" (.vStr "Text"),
               sampleNode "s1" (.vStr "Section")]).toFinset.card
      ∧ ∀ (id : String) (r : RawNode),
          ([sampleNode "s3" (.vStr "Section"), sampleNode "t" (.vStr "Text"),
            sampleNode "s1" (.vStr "Section")] : List RawNode).find?
              (fun r' => jsToString r'.id == id) = some r →
          ((∀ k : ℕ, r.type = JsValue.vStr "Section" →
              (firstOccs [] (sectionIdsOf
                [sampleNode "s3" (.vStr "Section"), sampleNode "t" (.vStr "Text"),
                 sampleNode "s1" (.vStr "Section")]))[k]? = some id →
              (getAttrs (buildGraphFromData
                  [sampleNode "s3" (.vStr "Section"), sampleNode "t" (.vStr "Text"),
                   sampleNode "s1" (.vStr "Section")] [] false).graph id).map (fun a => a.label)
                = some (toString (k + 1)))
            ∧ (r.type ≠ JsValue.vStr "Section" →
              (getAttrs (buildGraphFromData
                  [sampleNode "s3" (.vStr "Section"), sampleNode "t" (.vStr "Text"),
                   sampleNode "s1" (.vStr "Section")] [] false).graph id).map (fun a => a.label)
                = some (jsStrOr r.label (jsToString r.id))))) :=
  ⟨by decide,
   C7_section_sequential_labels
     [sampleNode "s3" (.vStr "Section"), sampleNode "t" (.vStr "Text"),
      sampleNode "s1" (.vStr "Section")] [] false (by decide)⟩

/-- The condition under which the edge loop accepts a raw edge record, as
the source implements it: the record is a well-formed structure, source and
target are present (truthy) and non-empty after trimming, the ordered
trimmed (source, target) pair is not already accepted, both name existing
nodes — and, additionally to the validation checks, the resolved edge id
(the record's truthy id, else the generated `edge-source-target-index`)
must not already be used as an edge key, since `addEdgeWithKey` throws on
a reused key and the surrounding try/catch then skips the record. -/
def edgeAccepts (st : EdgeState) (index : ℕ) (ev : RawEdgeVal) : Prop :=
  ∃ e, ev = RawEdgeVal.obj e
    ∧ truthy e.source = true ∧ truthy e.target = true
    ∧ jsTrim (jsToString e.source) ≠ "" ∧ jsTrim (jsToString e.target) ≠ ""
    ∧ (jsTrim (jsToString e.source) ++ "→" ++ jsTrim (jsToString e.target)) ∉ st.added
    ∧ hasNode st.graph (jsTrim (jsToString e.source)) = true
    ∧ hasNode st.graph (jsTrim (jsToString e.target)) = true
    ∧ hasEdgeKey st.graph (jsStrOr e.id
        (genEdgeId (jsTrim (jsToString e.source)) (jsTrim (jsToString e.target)) index)) = false

theorem processEdge_reject (d : Bool) (idx : ℕ) (st : EdgeState) (ev : RawEdgeVal)
    (h : ¬ edgeAccepts st idx ev) :
    (processEdge d idx st ev).graph.edges = st.graph.edges := by
  rcases ev with _ | e
  · rfl
  · simp only [processEdge]
    split_ifs with g1 g2 g3 g4 g5 g6 g7
    all_goals try rfl
    all_goals exfalso
    all_goals apply h
    all_goals refine ⟨e, rfl, ?_, ?_, ?_, ?_, g3, ?_, ?_, ?_⟩
    all_goals first
      | (cases hb : truthy e.source
         · exact absurd (by simp [hb]) g1
         · rfl)
      | (cases hb : truthy e.target
         · exact absurd (by simp [hb]) g1
         · rfl)
      | (intro hc
         exact g2 (by simp [hc]))
      | (cases hb : hasNode st.graph (jsTrim (jsToString e.source))
         · exact absurd (by simp [hb]) g4
         · rfl)
      | (cases hb : hasNode st.graph (jsTrim (jsToString e.target))
         · exact absurd (by simp [hb]) g5
         · rfl)
      | (cases hb : hasEdgeKey st.graph (jsStrOr e.id
            (genEdgeId (jsTrim (jsToString e.source)) (jsTrim (jsToString e.target)) idx))
         · rfl
         · exact absurd hb g7)

/-- Claim C4: per raw edge record, the node set is never mutated; the
record produces an accepted edge (edge list grows by one) precisely when
it passes the validation checks AND its resolved edge id is fresh (the
amendment: a reused explicit edge id makes `addEdgeWithKey` throw, and the
caught record is skipped even though it passes every validation check);
a record that is not accepted leaves the edge list unchanged, and the loop
never aborts (each record yields a defined successor state). -/
theorem C4_edge_validation (d : Bool) (idx : ℕ) (st : EdgeState) (ev : RawEdgeVal) :
    ((processEdge d idx st ev).graph.nodes = st.graph.nodes)
    ∧ ((processEdge d idx st ev).graph.edges.length = st.graph.edges.length + 1
        ↔ edgeAccepts st idx ev)
    ∧ (¬ edgeAccepts st idx ev → (processEdge d idx st ev).graph.edges = st.graph.edges) := by
  refine ⟨nodes_processEdge d idx st ev, ⟨?_, ?_⟩, processEdge_reject d idx st ev⟩
  · intro hlen
    by_contra hnc
    rw [processEdge_reject d idx st ev hnc] at hlen
    omega
  · rintro ⟨e, rfl, h1, h2, h3, h4, h5, h6, h7, h8⟩
    rw [processEdge_accept d idx st e h1 h2 h3 h4 h5 h6 h7 h8]
    simp [addEdgeWithKey]

/-- Claim C4, counterexample.  C4 states a record is accepted if and only
if it passes the listed validation checks.  Here the second record
`{id:"e", source:"b", target:"a"}` passes every listed check — it is
well-formed, source and target are present, non-empty, the ordered pair
(b, a) differs from the accepted (a, b), and both nodes exist — yet only
one edge survives and the duplicate-pair counter stays 0: the record is
dropped because its explicit id `"e"` already keys the first edge
(`addEdgeWithKey` throws; the catch skips the record). -/
theorem C4_counterexample :
    (buildGraphFromData [sampleNode "a" .vUndef, sampleNode "b" .vUndef]
        [RawEdgeVal.obj ⟨some "e", .vStr "a", .vStr "b", none, none, none⟩,
         RawEdgeVal.obj ⟨some "e", .vStr "b", .vStr "a", none, none, none⟩]
        false).graph.edges.length = 1
    ∧ (buildGraphFromData [sampleNode "a" .vUndef, sampleNode "b" .vUndef]
        [RawEdgeVal.obj ⟨some "e", .vStr "a", .vStr "b", none, none, none⟩,
         RawEdgeVal.obj ⟨some "e", .vStr "b", .vStr "a", none, none, none⟩]
        false).duplicateCount = 0
    ∧ hasNode (buildGraphFromData [sampleNode "a" .vUndef, sampleNode "b" .vUndef]
        [RawEdgeVal.obj ⟨some "e", .vStr "a", .vStr "b", none, none, none⟩,
         RawEdgeVal.obj ⟨some "e", .vStr "b", .vStr "a", none, none, none⟩]
        false).graph "a" = true
    ∧ hasNode (buildGraphFromData [sampleNode "a" .vUndef, sampleNode "b" .vUndef]
        [RawEdgeVal.obj ⟨some "e", .vStr "a", .vStr "b", none, none, none⟩,
         RawEdgeVal.obj ⟨some "e", .vStr "b", .vStr "a", none, none, none⟩]
        false).graph "b" = true := by
  refine ⟨?_, ?_, ?_, ?_⟩ <;> decide

/-- Claim C8: the dense-graph flag (computed by the build from the RAW node
and edge counts) is true iff node count > 200 or edge count > 500; for an
accepted edge with raw size s (default 2 when the field is absent; the
hypothesis s ≠ 0 excludes the JS-falsy explicit 0, outside the data model's
positive sizes), the resolved size is max(s·0.8, 1.5) when the flag is true
and max(s, 1.5) otherwise, and the resolved color is the explicit (truthy)
color or the fixed default `#60a5fa`, with the fixed alpha suffix `DD`
appended. -/
theorem C8_dense_flag_and_edge_style (n k : ℕ) (d : Bool) (idx : ℕ) (st : EdgeState)
    (e : RawEdge)
    (h1 : truthy e.source = true) (h2 : truthy e.target = true)
    (h3 : jsTrim (jsToString e.source) ≠ "") (h4 : jsTrim (jsToString e.target) ≠ "")
    (h5 : (jsTrim (jsToString e.source) ++ "→" ++ jsTrim (jsToString e.target)) ∉ st.added)
    (h6 : hasNode st.graph (jsTrim (jsToString e.source)) = true)
    (h7 : hasNode st.graph (jsTrim (jsToString e.target)) = true)
    (h8 : hasEdgeKey st.graph (jsStrOr e.id
        (genEdgeId (jsTrim (jsToString e.source)) (jsTrim (jsToString e.target)) idx)) = false)
    (hsz : e.size ≠ some 0) (hc : e.color ≠ some "") :
    (isDenseGraph n k = true ↔ (200 < n ∨ 500 < k))
    ∧ (processEdge d idx st (.obj e)).graph.edges
        = st.graph.edges ++ [(jsStrOr e.id
            (genEdgeId (jsTrim (jsToString e.source)) (jsTrim (jsToString e.target)) idx),
            { source := jsTrim (jsToString e.source)
              target := jsTrim (jsToString e.target)
              attrs := {
                size := if d then max (e.size.getD 2 * 0.8) 1.5 else max (e.size.getD 2) 1.5
                color := e.color.getD "#60a5fa" ++ "DD"
                displayType := "line"
                relationshipType := jsStrOr e.type "" } })] := by
  constructor
  · simp [isDenseGraph]
  · rw [processEdge_accept d idx st e h1 h2 h3 h4 h5 h6 h7 h8]
    have hnum : jsNumOr e.size 2 = e.size.getD 2 := by
      rcases hs : e.size with _ | q
      · rfl
      · have hq : ¬ q = 0 := fun h0 => hsz (by rw [hs, h0])
        simp [jsNumOr, hq]
    have hcol : jsStrOr e.color "#60a5fa" = e.color.getD "#60a5fa" := by
      rcases hcs : e.color with _ | c
      · rfl
      · have hcn : ¬ c = "" := fun h0 => hc (by rw [hcs, h0])
        simp [jsStrOr, hcn]
    rw [hnum, hcol]
    rfl

/-- Concrete two-node graph with node ids a and b, used in witnesses. -/
def abG : Graph :=
  ⟨[("a", ⟨"a", 10, "#64748b", .vUndef, some [], .q 0, .q 0⟩),
    ("b", ⟨"b", 10, "#64748b", .vUndef, some [], .q 0, .q 0⟩)], []⟩

/-- Witness for `C8_dense_flag_and_edge_style`: a concrete accepted edge
record with explicit size 4 and color `#112233`, in a dense graph
(201 raw nodes). -/
theorem C8_dense_flag_and_edge_style_witness :
    (truthy (JsValue.vStr "a") = true ∧ truthy (JsValue.vStr "b") = true
      ∧ jsTrim (jsToString (JsValue.vStr "a")) ≠ ""
      ∧ jsTrim (jsToString (JsValue.vStr "b")) ≠ ""
      ∧ (jsTrim (jsToString (JsValue.vStr "a")) ++ "→"
          ++ jsTrim (jsToString (JsValue.vStr "b"))) ∉ (⟨abG, [], 0⟩ : EdgeState).added
      ∧ hasNode (⟨abG, [], 0⟩ : EdgeState).graph (jsTrim (jsToString (JsValue.vStr "a"))) = true
      ∧ hasNode (⟨abG, [], 0⟩ : EdgeState).graph (jsTrim (jsToString (JsValue.vStr "b"))) = true
      ∧ hasEdgeKey (⟨abG, [], 0⟩ : EdgeState).graph
          (jsStrOr (some "e1") (genEdgeId (jsTrim (jsToString (JsValue.vStr "a")))
            (jsTrim (jsToString (JsValue.vStr "b"))) 0)) = false
      ∧ (some (4 : ℚ) : Option ℚ) ≠ some 0 ∧ (some "#112233" : Option String) ≠ some "")
    ∧ ((isDenseGraph 201 0 = true ↔ (200 < 201 ∨ 500 < 0))
      ∧ (processEdge true 0 (⟨abG, [], 0⟩ : EdgeState)
          (.obj ⟨some "e1", .vStr "a", .vStr "b", some "rel", some 4, some "#112233"⟩)).graph.edges
        = (⟨abG, [], 0⟩ : EdgeState).graph.edges ++ [(jsStrOr (some "e1")
            (genEdgeId (jsTrim (jsToString (JsValue.vStr "a")))
              (jsTrim (jsToString (JsValue.vStr "b"))) 0),
            { source := jsTrim (jsToString (JsValue.vStr "a"))
              target := jsTrim (jsToString (JsValue.vStr "b"))
              attrs := {
                size := if true then max ((some (4 : ℚ) : Option ℚ).getD 2 * 0.8) 1.5
                  else max ((some (4 : ℚ) : Option ℚ).getD 2) 1.5
                color := (some "#112233" : Option String).getD "#60a5fa" ++ "DD"
                displayType := "line"
                relationshipType := jsStrOr (some "rel") "" } })]) :=
  ⟨⟨by decide, by decide, by decide, by decide, by decide, by decide, by decide, by decide,
    by decide, by decide⟩,
   C8_dense_flag_and_edge_style 201 0 true 0 ⟨abG, [], 0⟩
     ⟨some "e1", .vStr "a", .vStr "b", some "rel", some 4, some "#112233"⟩
     (by decide) (by decide) (by decide) (by decide) (by decide) (by decide) (by decide)
     (by decide) (by decide) (by decide)⟩

theorem processEdges_cons (d : Bool) (st : EdgeState) (p : ℕ × RawEdgeVal)
    (l : List (ℕ × RawEdgeVal)) :
    processEdges d st (p :: l) = processEdges d (processEdge d p.1 st p.2) l := rfl

theorem hasEdgeKey_of_edges_nil {g : Graph} (h : g.edges = []) (k : String) :
    hasEdgeKey g k = false := by
  unfold hasEdgeKey
  rw [h]
  rfl

theorem enum_cons {α : Type} (a : α) (l : List α) :
    (a :: l).enum = (0, a) :: l.enumFrom 1 := by
  simp [List.enum, List.enumFrom_cons]

/-- Claim C5: directed edge identity is the ordered trimmed (source,
target) pair.  For a raw edge list whose records all carry the same
ordered pair (a, b) — regardless of their differing ids, relationship
types, sizes or colors — with a and b naming existing nodes, exactly one
edge survives, its attributes are derived from the FIRST record, and the
duplicate counter ends at exactly (number of records − 1): one increment
per extra occurrence. -/
theorem C5_duplicate_edge_pairs (ns : List RawNode) (a b : String) (e : RawEdge)
    (rest : List RawEdgeVal) (m : Bool)
    (ha : a ≠ "") (hb : b ≠ "") (hta : jsTrim a = a) (htb : jsTrim b = b)
    (hma : a ∈ ns.map (fun r => jsToString r.id))
    (hmb : b ∈ ns.map (fun r => jsToString r.id))
    (hsrc : e.source = .vStr a) (htgt : e.target = .vStr b)
    (hrest : ∀ ev ∈ rest, ∃ e', ev = RawEdgeVal.obj e' ∧ e'.source = .vStr a
        ∧ e'.target = .vStr b) :
    (buildGraphFromData ns (RawEdgeVal.obj e :: rest) m).graph.edges.length = 1
    ∧ (buildGraphFromData ns (RawEdgeVal.obj e :: rest) m).duplicateCount = rest.length
    ∧ (buildGraphFromData ns (RawEdgeVal.obj e :: rest) m).graph.edges.map
        (fun p => (p.2.source, p.2.target, p.2.attrs))
      = [(a, b,
          { size := if isDenseGraph ns.length (rest.length + 1)
                then max (jsNumOr e.size 2 * 0.8) 1.5 else max (jsNumOr e.size 2) 1.5
            color := jsStrOr e.color "#60a5fa" ++ "DD"
            displayType := "line"
            relationshipType := jsStrOr e.type "" })] := by
  have hnsne : ns ≠ [] := by
    rintro rfl
    simp at hma
  have hlen : 0 < ns.length := List.length_pos.mpr hnsne
  have hkeys : keysOf
      (if m then applyWordLayout (ns.foldl (addRawNode (buildSectionMap ns)) Graph.empty)
       else applyRadialLayout (ns.foldl (addRawNode (buildSectionMap ns)) Graph.empty))
      = freshIds [] ns := by
    rw [keysOf_layout_ite, keysOf_nodePhase]
  have hhasa : hasNode
      (if m then applyWordLayout (ns.foldl (addRawNode (buildSectionMap ns)) Graph.empty)
       else applyRadialLayout (ns.foldl (addRawNode (buildSectionMap ns)) Graph.empty))
      a = true := by
    rw [hasNode_iff_mem_keys, hkeys]
    exact mem_freshIds.mpr ⟨hma, by simp⟩
  have hhasb : hasNode
      (if m then applyWordLayout (ns.foldl (addRawNode (buildSectionMap ns)) Graph.empty)
       else applyRadialLayout (ns.foldl (addRawNode (buildSectionMap ns)) Graph.empty))
      b = true := by
    rw [hasNode_iff_mem_keys, hkeys]
    exact mem_freshIds.mpr ⟨hmb, by simp⟩
  have hedges0 : (if m then applyWordLayout (ns.foldl (addRawNode (buildSectionMap ns)) Graph.empty)
       else applyRadialLayout (ns.foldl (addRawNode (buildSectionMap ns)) Graph.empty)).edges
      = [] := layout_ite_edges m ns
  rcases e with ⟨eid, esrc, etgt, etype, esize, ecolor⟩
  simp only at hsrc htgt
  subst hsrc
  subst htgt
  have h1 : truthy (JsValue.vStr a) = true := by simp [truthy, ha]
  have h2 : truthy (JsValue.vStr b) = true := by simp [truthy, hb]
  have h3 : jsTrim (jsToString (JsValue.vStr a)) ≠ "" := by
    simpa [jsToString, hta] using ha
  have h4 : jsTrim (jsToString (JsValue.vStr b)) ≠ "" := by
    simpa [jsToString, htb] using hb
  have hstep := processEdge_accept (isDenseGraph ns.length (RawEdgeVal.obj
      ⟨eid, .vStr a, .vStr b, etype, esize, ecolor⟩ :: rest).length) 0
    ⟨(if m then applyWordLayout (ns.foldl (addRawNode (buildSectionMap ns)) Graph.empty)
       else applyRadialLayout (ns.foldl (addRawNode (buildSectionMap ns)) Graph.empty)), [], 0⟩
    ⟨eid, .vStr a, .vStr b, etype, esize, ecolor⟩
    h1 h2 h3 h4 (by simp) (by simpa [jsToString, hta] using hhasa)
    (by simpa [jsToString, htb] using hhasb)
    (hasEdgeKey_of_edges_nil hedges0 _)
  simp only [buildGraphFromData, if_pos hlen]
  rw [if_pos (by simp : 0 < (RawEdgeVal.obj ⟨eid, .vStr a, .vStr b, etype, esize, ecolor⟩
      :: rest).length)]
  rw [enum_cons, processEdges_cons]
  simp only at hstep
  rw [hstep]
  rw [processEdges_dup_run (isDenseGraph ns.length (RawEdgeVal.obj
      ⟨eid, .vStr a, .vStr b, etype, esize, ecolor⟩ :: rest).length) a b ha hb hta htb
    (rest.enumFrom 1) _
    (by simp [jsToString, hta, htb])
    (by
      intro p hp
      have hmemr : p.2 ∈ rest := by
        have hmm := List.mem_map_of_mem Prod.snd hp
        rwa [List.enumFrom_map_snd] at hmm
      exact hrest p.2 hmemr)]
  refine ⟨?_, ?_, ?_⟩
  · simp [addEdgeWithKey, hedges0]
  · simp [List.enumFrom_length]
  · simp only [addEdgeWithKey, hedges0]
    simp [jsToString, hta, htb]

/-- Witness for `C5_duplicate_edge_pairs`: two records with the ordered
pair (a, b) and different ids/types; one edge survives with the first
record's attributes and the duplicate counter is 1. -/
theorem C5_duplicate_edge_pairs_witness :
    (("a" : String) ≠ "" ∧ ("b" : String) ≠ "" ∧ jsTrim "a" = "a" ∧ jsTrim "b" = "b"
      ∧ ("a" : String) ∈ ([sampleNode "a" .vUndef, sampleNode "b" .vUndef] : List RawNode).map
          (fun r => jsToString r.id)
      ∧ ("b" : String) ∈ ([sampleNode "a" .vUndef, sampleNode "b" .vUndef] : List RawNode).map
          (fun r => jsToString r.id)
      ∧ (⟨some "e1", .vStr "a", .vStr "b", some "rel", some 4, none⟩ : RawEdge).source
          = JsValue.vStr "a"
      ∧ (⟨some "e1", .vStr "a", .vStr "b", some "rel", some 4, none⟩ : RawEdge).target
          = JsValue.vStr "b")
    ∧ ((buildGraphFromData [sampleNode "a" .vUndef, sampleNode "b" .vUndef]
          (RawEdgeVal.obj ⟨some "e1", .vStr "a", .vStr "b", some "rel", some 4, none⟩
            :: [RawEdgeVal.obj ⟨some "e2", .vStr "a", .vStr "b", none, none, none⟩])
          false).graph.edges.length = 1
      ∧ (buildGraphFromData [sampleNode "a" .vUndef, sampleNode "b" .vUndef]
          (RawEdgeVal.obj ⟨some "e1", .vStr "a", .vStr "b", some "rel", some 4, none⟩
            :: [RawEdgeVal.obj ⟨some "e2", .vStr "a", .vStr "b", none, none, none⟩])
          false).duplicateCount
          = ([RawEdgeVal.obj ⟨some "e2", .vStr "a", .vStr "b", none, none, none⟩]
              : List RawEdgeVal).length
      ∧ (buildGraphFromData [sampleNode "a" .vUndef, sampleNode "b" .vUndef]
          (RawEdgeVal.obj ⟨some "e1", .vStr "a", .vStr "b", some "rel", some 4, none⟩
            :: [RawEdgeVal.obj ⟨some "e2", .vStr "a", .vStr "b", none, none, none⟩])
          false).graph.edges.map (fun p => (p.2.source, p.2.target, p.2.attrs))
        = [("a", "b",
            { size := if isDenseGraph
                  ([sampleNode "a" .vUndef, sampleNode "b" .vUndef] : List RawNode).length
                  (([RawEdgeVal.obj ⟨some "e2", .vStr "a", .vStr "b", none, none, none⟩]
                    : List RawEdgeVal).length + 1)
                then max (jsNumOr (some 4) 2 * 0.8) 1.5 else max (jsNumOr (some 4) 2) 1.5
              color := jsStrOr none "#60a5fa" ++ "DD"
              displayType := "line"
              relationshipType := jsStrOr (some "rel") "" })]) :=
  ⟨⟨by decide, by decide, by decide, by decide, by decide, by decide, by decide, by decide⟩,
   C5_duplicate_edge_pairs [sampleNode "a" .vUndef, sampleNode "b" .vUndef] "a" "b"
     ⟨some "e1", .vStr "a", .vStr "b", some "rel", some 4, none⟩
     [RawEdgeVal.obj ⟨some "e2", .vStr "a", .vStr "b", none, none, none⟩] false
     (by decide) (by decide) (by decide) (by decide) (by decide) (by decide) (by decide)
     (by decide)
     (by
       intro ev hev
       rcases List.mem_singleton.mp hev with rfl
       exact ⟨⟨some "e2", .vStr "a", .vStr "b", none, none, none⟩, rfl, rfl, rfl⟩)⟩
